import Mathlib

/-!
# eamsa512: chaos key derivation pipeline

A shallow embedding of `chaos.go` and `kdf.go` and the properties of the key
derivation pipeline that follow from the code.

* The integrators and the key stream assembler are written once, over an
  arbitrary carrier `F` of the `float64` operations the source uses
  (`+ - * /` and decimal literals).  `Float64` below is the IEEE-754 binary64
  instance; an exact field (`ℚ`, `ℝ`) is another.
* The process-wide generator of `math/rand` is explicit state of type `G`,
  threaded through `initChaos` and `generateChaosKeys`.
* Bytes are natural numbers below 256; `int64` and `int` are integers.
-/

namespace Eamsa512

/-! ## IEEE-754 binary64

The arithmetic of `float64`: every operation is computed exactly and rounded
once, to nearest with ties to even; products and sums are never fused.
-/

/-- IEEE-754 binary64 value, carried as its 64-bit pattern
    (what `math.Float64bits` returns). -/
structure Float64 where
  bits : Nat
  bits_lt : bits < 2 ^ 64
deriving DecidableEq

namespace Float64

/-- The value with the given pattern (taken modulo 2^64). -/
def ofBits (n : Nat) : Float64 := ⟨n % 2 ^ 64, Nat.mod_lt _ (by decide)⟩

/-- Sign bit. -/
def sign (x : Float64) : Nat := x.bits >>> 63

/-- Biased exponent field, 11 bits. -/
def expField (x : Float64) : Nat := (x.bits >>> 52) % 2048

/-- Fraction field, 52 bits. -/
def fracField (x : Float64) : Nat := x.bits % 2 ^ 52

def isNaN (x : Float64) : Bool := x.expField == 2047 && x.fracField != 0

def isInf (x : Float64) : Bool := x.expField == 2047 && x.fracField == 0

/-- Neither NaN nor an infinity. -/
def isFinite (x : Float64) : Bool := x.expField != 2047

/-- Magnitude of a finite value in units of 2^-1074. -/
def mag (x : Float64) : Nat :=
  if x.expField = 0 then x.fracField else (2 ^ 52 + x.fracField) <<< (x.expField - 1)

/-- Signed value of a finite pattern in units of 2^-1074. -/
def scaled (x : Float64) : Int := if x.sign = 1 then -(x.mag : Int) else x.mag

/-- The quiet NaN returned by invalid operations.  Sign and payload of a NaN
    are platform dependent; every NaN result is this one. -/
def qNaN : Float64 := ofBits 0x7FF8000000000000

/-- Infinity with sign bit `s`. -/
def inf (s : Nat) : Float64 := ofBits (s * 2 ^ 63 + 0x7FF0000000000000)

/-- Zero with sign bit `s`. -/
def zero (s : Nat) : Float64 := ofBits (s * 2 ^ 63)

/-- Integer binary logarithm by descending shifts; exact for
    0 < n < 2 ^ 131072, which covers every operand produced below. -/
def ilog2Aux : List Nat → Nat → Nat → Nat
  | [], _, acc => acc
  | k :: ks, n, acc =>
    if n >>> k = 0 then ilog2Aux ks n acc else ilog2Aux ks (n >>> k) (acc + k)

def ilog2 (n : Nat) : Nat :=
  ilog2Aux [65536, 32768, 16384, 8192, 4096, 2048, 1024, 512, 256, 128, 64, 32, 16, 8, 4, 2, 1] n 0

/-- Round the non-negative rational n / d to nearest, ties to even, and attach
    sign bit `s`. -/
def round (s n d : Nat) : Float64 :=
  if n = 0 then zero s else
  let ln := ilog2 n
  let ld := ilog2 d
  -- biased exponent of the result before rounding, clamped to the subnormal range
  let be := max (ln + 1023 - (ld + (if n <<< ld < d <<< ln then 1 else 0))) 1
  if be ≥ 2047 then inf s else
  let num := n <<< 1075
  let den := d <<< be
  let quo := num / den
  let rem := num % den
  let mant := if 2 * rem > den ∨ (2 * rem = den ∧ quo % 2 = 1) then quo + 1 else quo
  ofBits (s * 2 ^ 63 + (be - 1) * 2 ^ 52 + mant)

def neg (x : Float64) : Float64 := ofBits (x.bits ^^^ 2 ^ 63)

def add (x y : Float64) : Float64 :=
  if x.isNaN || y.isNaN then qNaN
  else if x.isInf then (if y.isInf && x.sign != y.sign then qNaN else x)
  else if y.isInf then y
  else
    let t := x.scaled + y.scaled
    if t = 0 then zero (if x.sign = 1 ∧ y.sign = 1 then 1 else 0)
    else round (if t < 0 then 1 else 0) t.natAbs (1 <<< 1074)

def sub (x y : Float64) : Float64 := add x (neg y)

def mul (x y : Float64) : Float64 :=
  let s := x.sign ^^^ y.sign
  if x.isNaN || y.isNaN then qNaN
  else if x.isInf || y.isInf then
    (if (x.isFinite && x.mag == 0) || (y.isFinite && y.mag == 0) then qNaN else inf s)
  else round s (x.mag * y.mag) (1 <<< 2148)

def div (x y : Float64) : Float64 :=
  let s := x.sign ^^^ y.sign
  if x.isNaN || y.isNaN then qNaN
  else if x.isInf then (if y.isInf then qNaN else inf s)
  else if y.isInf then zero s
  else if y.mag = 0 then (if x.mag = 0 then qNaN else inf s)
  else round s x.mag y.mag

/-- The comparison `x <= y` of the language: false when either side is NaN,
    and the two zeros are equal. -/
def le (x y : Float64) : Bool :=
  let key (z : Float64) : Int :=
    if z.isInf then (if z.sign = 1 then -((1 <<< 2100 : Nat) : Int) else ((1 <<< 2100 : Nat) : Int))
    else z.scaled
  !x.isNaN && !y.isNaN && decide (key x ≤ key y)

/-- Position of a value that is not NaN on the extended number line, in units
    of 2^-1074 (the infinities sit beyond every finite value). -/
def orderKey (z : Float64) : Int :=
  if z.isInf then (if z.sign = 1 then -((1 <<< 2100 : Nat) : Int) else ((1 <<< 2100 : Nat) : Int))
  else z.scaled

/-- The comparison `x < y` of the language: false when either side is NaN. -/
def lt (x y : Float64) : Bool :=
  !x.isNaN && !y.isNaN && decide (orderKey x < orderKey y)

/-- The comparison `x == y` of the language: false when either side is NaN,
    and the two zeros are equal. -/
def equal (x y : Float64) : Bool :=
  !x.isNaN && !y.isNaN && decide (orderKey x = orderKey y)

instance : Add Float64 := ⟨add⟩
instance : Sub Float64 := ⟨sub⟩
instance : Mul Float64 := ⟨mul⟩
instance : Div Float64 := ⟨div⟩
instance : Neg Float64 := ⟨neg⟩

/-- Decimal literals are converted with a single rounding, as the compiler
    converts an untyped constant. -/
instance : OfScientific Float64 where
  ofScientific m s e := if s then round 0 m (10 ^ e) else round 0 (m * 10 ^ e) 1

end Float64

/-! ## chaos.go -/

/-- Source type `Vector3`: a 3D vector for the Lorenz system. -/
structure Vector3 (F : Type) where
  X : F
  Y : F
  Z : F
deriving DecidableEq

/-- Source type `Vector5`: a 5D vector for the hyperchaotic system. -/
structure Vector5 (F : Type) where
  M : F
  N : F
  P : F
  R : F
  Q : F
deriving DecidableEq

section Integrators

variable {F : Type} [Add F] [Sub F] [Mul F] [Div F] [OfScientific F]

/-- Lorenz parameter `sigma = 10.0`. -/
def sigma : F := 10.0

/-- Lorenz parameter `rho = 28.0`. -/
def rho : F := 28.0

/-- Lorenz parameter `beta = 8.0 / 3.0`. -/
def beta : F := 8.0 / 3.0

/-- Hyperchaotic parameter `a = 30.0`. -/
def a : F := 30.0

/-- Hyperchaotic parameter `b = 11.0`. -/
def b : F := 11.0

/-- Hyperchaotic parameter `c = 90.0`. -/
def c : F := 90.0

/-- Right-hand side of the Lorenz system.  The source declares this function
    twice, with the same body. -/
def lorenzDeriv (v : Vector3 F) : Vector3 F :=
  { X := sigma * (v.Y - v.X)
    Y := v.X * (rho - v.Z) - v.Y
    Z := v.X * v.Y - beta * v.Z }

/-- RK4 step for Lorenz. -/
def lorenzRK4 (v : Vector3 F) (dt : F) : Vector3 F :=
  let k1 := lorenzDeriv v
  let k2 := lorenzDeriv
    { X := v.X + 0.5 * dt * k1.X
      Y := v.Y + 0.5 * dt * k1.Y
      Z := v.Z + 0.5 * dt * k1.Z }
  let k3 := lorenzDeriv
    { X := v.X + 0.5 * dt * k2.X
      Y := v.Y + 0.5 * dt * k2.Y
      Z := v.Z + 0.5 * dt * k2.Z }
  let k4 := lorenzDeriv
    { X := v.X + dt * k3.X
      Y := v.Y + dt * k3.Y
      Z := v.Z + dt * k3.Z }
  { X := v.X + (dt / 6.0) * (k1.X + 2.0 * k2.X + 2.0 * k3.X + k4.X)
    Y := v.Y + (dt / 6.0) * (k1.Y + 2.0 * k2.Y + 2.0 * k3.Y + k4.Y)
    Z := v.Z + (dt / 6.0) * (k1.Z + 2.0 * k2.Z + 2.0 * k3.Z + k4.Z) }

/-- Right-hand side of the hyperchaotic system. -/
def hyperchaoticDeriv (v : Vector5 F) : Vector5 F :=
  { M := a * (v.N - v.M)
    N := v.M * (b - v.P) - v.N + v.Q
    P := v.M * v.N - c * v.P
    R := v.N * v.P - v.R
    Q := v.R - v.Q }

/-- RK4 step for the hyperchaotic system. -/
def hyperchaoticRK4 (v : Vector5 F) (dt : F) : Vector5 F :=
  let k1 := hyperchaoticDeriv v
  let k2 := hyperchaoticDeriv
    { M := v.M + 0.5 * dt * k1.M
      N := v.N + 0.5 * dt * k1.N
      P := v.P + 0.5 * dt * k1.P
      R := v.R + 0.5 * dt * k1.R
      Q := v.Q + 0.5 * dt * k1.Q }
  let k3 := hyperchaoticDeriv
    { M := v.M + 0.5 * dt * k2.M
      N := v.N + 0.5 * dt * k2.N
      P := v.P + 0.5 * dt * k2.P
      R := v.R + 0.5 * dt * k2.R
      Q := v.Q + 0.5 * dt * k2.Q }
  let k4 := hyperchaoticDeriv
    { M := v.M + dt * k3.M
      N := v.N + dt * k3.N
      P := v.P + dt * k3.P
      R := v.R + dt * k3.R
      Q := v.Q + dt * k3.Q }
  { M := v.M + (dt / 6.0) * (k1.M + 2.0 * k2.M + 2.0 * k3.M + k4.M)
    N := v.N + (dt / 6.0) * (k1.N + 2.0 * k2.N + 2.0 * k3.N + k4.N)
    P := v.P + (dt / 6.0) * (k1.P + 2.0 * k2.P + 2.0 * k3.P + k4.P)
    R := v.R + (dt / 6.0) * (k1.R + 2.0 * k2.R + 2.0 * k3.R + k4.R)
    Q := v.Q + (dt / 6.0) * (k1.Q + 2.0 * k2.Q + 2.0 * k3.Q + k4.Q) }

end Integrators

/-! ## The process-wide generator of `math/rand` -/

/-- The two entry points of `math/rand` the source calls, acting on the state
    `G` of the default (process-wide) source: `rand.Seed(seed)` maps the state
    before the call to the state after it, `rand.Float64()` returns a draw
    together with the advanced state. -/
structure MathRand (G F : Type) where
  Seed : Int → G → G
  Float64 : G → F × G

/-- Modelled from the spec: the generator behind `rand.Seed` and
    `rand.Float64` is not part of the repository; §4.2 pins SplitMix64
    advanced from the seed, each 64-bit output `u` mapped to the double
    `(u >> 11) * 2^-53`.  It is the concrete generator wherever a statement is
    evaluated at explicit inputs; the general statements hold for every
    generator. -/
def splitMix64 : MathRand Nat Float64 where
  Seed seed _ := (seed % 2 ^ 64).toNat
  Float64 g :=
    let g1 := (g + 0x9E3779B97F4A7C15) % 2 ^ 64
    let z1 := ((g1 ^^^ (g1 >>> 30)) * 0xBF58476D1CE4E5B9) % 2 ^ 64
    let z2 := ((z1 ^^^ (z1 >>> 27)) * 0x94D049BB133111EB) % 2 ^ 64
    let u := z2 ^^^ (z2 >>> 31)
    (Float64.round 0 (u >>> 11) (1 <<< 53), g1)

section Assembler

variable {F G : Type}

/-- Initialize chaos systems with seed.  The eight calls of `rand.Float64()`
    happen in source order, each on the state the previous one left. -/
def initChaos [Sub F] [Mul F] [OfScientific F]
    (rng : MathRand G F) (g : G) (seed : Int) : (Vector3 F × Vector5 F) × G :=
  let g0 := rng.Seed seed g
  let (r1, g1) := rng.Float64 g0
  let (r2, g2) := rng.Float64 g1
  let (r3, g3) := rng.Float64 g2
  let vLorenz : Vector3 F :=
    { X := r1 * 20.0 - 10.0
      Y := r2 * 20.0 - 10.0
      Z := r3 * 20.0 - 10.0 }
  let (r4, g4) := rng.Float64 g3
  let (r5, g5) := rng.Float64 g4
  let (r6, g6) := rng.Float64 g5
  let (r7, g7) := rng.Float64 g6
  let (r8, g8) := rng.Float64 g7
  let vHyper : Vector5 F :=
    { M := r4 * 30.0
      N := r5 * 30.0
      P := r6 * 30.0
      R := r7 * 30.0
      Q := r8 * 30.0 }
  ((vLorenz, vHyper), g8)

/-- Carriers with the bit pattern `math.Float64bits` reads off a `float64`,
    a `uint64`. -/
class HasFloat64bits (F : Type) where
  Float64bits : F → Nat
  Float64bits_lt : ∀ f, Float64bits f < 2 ^ 64

export HasFloat64bits (Float64bits Float64bits_lt)

instance : HasFloat64bits Float64 := ⟨Float64.bits, Float64.bits_lt⟩

/-- Conversion `byte(x)` of an unsigned integer: the low eight bits. -/
def byte (x : Nat) : Nat := x % 256

def float64ToBytes [HasFloat64bits F] (f : F) : List Nat :=
  [ byte (Float64bits f >>> 56),
    byte (Float64bits f >>> 48),
    byte (Float64bits f >>> 40),
    byte (Float64bits f >>> 32),
    byte (Float64bits f >>> 24),
    byte (Float64bits f >>> 16),
    byte (Float64bits f >>> 8),
    byte (Float64bits f) ]

/-- Source type `[11][]byte`: an array of eleven byte slices. -/
abbrev Keys := Mathlib.Vector (List Nat) 11

/-- The zero value of `[11][]byte`: eleven nil slices. -/
def Keys.empty : Keys := Mathlib.Vector.replicate 11 []

/-- The statement `keys[k] = append(keys[k], bs...)`. -/
def Keys.append (keys : Keys) (k : Fin 11) (bs : List Nat) : Keys :=
  keys.set k (keys.get k ++ bs)

/-- The variables the loop of `generateChaosKeys` updates. -/
structure LoopState (F : Type) where
  vLorenz : Vector3 F
  vHyper : Vector5 F
  keys : Keys

variable [Add F] [Sub F] [Mul F] [Div F] [OfScientific F] [HasFloat64bits F]

/-- One pass through the body of the loop of `generateChaosKeys`. -/
def loopBody (dt : F) (s : LoopState F) : LoopState F :=
  let vLorenz := lorenzRK4 s.vLorenz dt
  let vHyper := hyperchaoticRK4 s.vHyper dt
  -- Map states to bytes
  let keys := s.keys
  let keys := keys.append 0 (float64ToBytes vLorenz.X)
  let keys := keys.append 1 (float64ToBytes vLorenz.Y)
  let keys := keys.append 2 (float64ToBytes vLorenz.Z)
  let keys := keys.append 3 (float64ToBytes vHyper.M)
  let keys := keys.append 4 (float64ToBytes vHyper.N)
  let keys := keys.append 5 (float64ToBytes vHyper.P)
  let keys := keys.append 6 (float64ToBytes vHyper.R)
  let keys := keys.append 7 (float64ToBytes vHyper.Q)
  { vLorenz := vLorenz, vHyper := vHyper, keys := keys }

/-- The loop `for i := 0; i < steps; i++` with `n` passes left. -/
def loop (dt : F) : Nat → LoopState F → LoopState F
  | 0, s => s
  | n + 1, s => loop dt n (loopBody dt s)

/-- Generate chaos keys.  `steps` is an `int`: the loop runs `steps` times
    when `steps` is positive and not at all otherwise.  The second component
    is the state of the process-wide generator after the call. -/
def generateChaosKeys (rng : MathRand G F) (g : G) (seed : Int) (steps : Int) (dt : F) :
    Keys × G :=
  let ((vLorenz, vHyper), g1) := initChaos rng g seed
  let s := loop dt steps.toNat { vLorenz := vLorenz, vHyper := vHyper, keys := Keys.empty }
  (s.keys, g1)

end Assembler

/-! ## SHA3-512 (FIPS 202), as provided by `crypto/sha3` -/

namespace Keccak

/-- Rotate a 64-bit lane left by `r` bits. -/
def rotl64 (x r : Nat) : Nat := ((x <<< r) ||| (x >>> (64 - r))) % 2 ^ 64

/-- Rotation offsets of the rho step, indexed by lane `x + 5 * y`. -/
def rotc : List Nat :=
  [0, 1, 62, 28, 27, 36, 44, 6, 55, 20, 3, 10, 43, 25, 39, 41, 45, 15, 21, 8, 18, 2, 61, 56, 14]

/-- Round constants of the iota step. -/
def roundConstants : List Nat :=
  [0x0000000000000001, 0x0000000000008082, 0x800000000000808A, 0x8000000080008000,
   0x000000000000808B, 0x0000000080000001, 0x8000000080008081, 0x8000000000008009,
   0x000000000000008A, 0x0000000000000088, 0x0000000080008009, 0x000000008000000A,
   0x000000008000808B, 0x800000000000008B, 0x8000000000008089, 0x8000000000008003,
   0x8000000000008002, 0x8000000000000080, 0x000000000000800A, 0x800000008000000A,
   0x8000000080008081, 0x8000000000008080, 0x0000000080000001, 0x8000000080008008]

/-- One round of Keccak-f[1600] on the 25 lanes `A[x + 5 * y]`. -/
def round (A : List Nat) (rc : Nat) : List Nat :=
  let C := (List.range 5).map fun x =>
    A.getD x 0 ^^^ A.getD (x + 5) 0 ^^^ A.getD (x + 10) 0 ^^^ A.getD (x + 15) 0 ^^^ A.getD (x + 20) 0
  let D := (List.range 5).map fun x => C.getD ((x + 4) % 5) 0 ^^^ rotl64 (C.getD ((x + 1) % 5) 0) 1
  let T := (List.range 25).map fun i => A.getD i 0 ^^^ D.getD (i % 5) 0
  -- rho and pi: lane (x, y) moves to (y, 2x + 3y)
  let B := (List.range 25).map fun j =>
    let src := (j % 5 + 3 * (j / 5)) % 5 + 5 * (j % 5)
    rotl64 (T.getD src 0) (rotc.getD src 0)
  let E := (List.range 25).map fun j =>
    B.getD j 0 ^^^
      ((B.getD ((j % 5 + 1) % 5 + 5 * (j / 5)) 0 ^^^ (2 ^ 64 - 1)) &&&
        B.getD ((j % 5 + 2) % 5 + 5 * (j / 5)) 0)
  E.set 0 (E.getD 0 0 ^^^ rc)

/-- The permutation Keccak-f[1600]: 24 rounds. -/
def f1600 (A : List Nat) : List Nat := roundConstants.foldl round A

/-- Little-endian value of a run of bytes. -/
def laneOfBytes : List Nat → Nat
  | [] => 0
  | x :: xs => x % 256 + 256 * laneOfBytes xs

/-- Absorb one 72-byte block: xor it into the first nine lanes and permute. -/
def absorb (A : List Nat) (blk : List Nat) : List Nat :=
  f1600 ((List.range 25).map fun i =>
    if i < 9 then A.getD i 0 ^^^ laneOfBytes ((blk.drop (8 * i)).take 8) else A.getD i 0)

/-- Absorb `n` consecutive 72-byte blocks. -/
def absorbAll : Nat → List Nat → List Nat → List Nat
  | 0, A, _ => A
  | n + 1, A, bs => absorbAll n (absorb A (bs.take 72)) (bs.drop 72)

/-- SHA-3 padding to a multiple of the rate: domain bits `01`, then `10*1`. -/
def pad (msg : List Nat) : List Nat :=
  let q := 72 - msg.length % 72
  if q = 1 then msg ++ [0x86] else msg ++ [0x06] ++ List.replicate (q - 2) 0 ++ [0x80]

/-- SHA3-512 of a message: rate 72 bytes, 64 bytes of output. -/
def sha3_512 (msg : List Nat) : List Nat :=
  let p := pad msg
  let A := absorbAll (p.length / 72) (List.replicate 25 0) p
  (List.range 64).map fun i => (A.getD (i / 8) 0 >>> (8 * (i % 8))) % 256

end Keccak

/-! ## kdf.go -/

/-- The `hash.Hash` returned by `sha3.New512()`: what has been written so
    far. -/
structure SHA3 where
  written : List Nat

/-- Constructor `sha3.New512()`. -/
def New512 : SHA3 := ⟨[]⟩

/-- Method `Write(p)`: absorbs more data into the running hash. -/
def SHA3.Write (h : SHA3) (p : List Nat) : SHA3 := ⟨h.written ++ p⟩

/-- Method `Sum(b)`: appends the hash of the data written so far to `b`. -/
def SHA3.Sum (h : SHA3) (b : List Nat) : List Nat := b ++ Keccak.sha3_512 h.written

/-- Function `binary.LittleEndian.Uint64(b)`; the source passes eight bytes. -/
def LittleEndian.Uint64 (b : List Nat) : Nat :=
  b.getD 0 0 ||| (b.getD 1 0 <<< 8) ||| (b.getD 2 0 <<< 16) ||| (b.getD 3 0 <<< 24) |||
    (b.getD 4 0 <<< 32) ||| (b.getD 5 0 <<< 40) ||| (b.getD 6 0 <<< 48) ||| (b.getD 7 0 <<< 56)

/-- Conversion `int64(u)` of a `uint64`: the same 64 bits, read in two's
    complement. -/
def int64 (u : Nat) : Int := if u < 2 ^ 63 then (u : Int) else (u : Int) - 2 ^ 64

/-- Derive chaos system initial conditions from master key + nonce. -/
def deriveChaosParams (masterKey : List Nat) (nonce : List Nat) : Int :=
  let hash := New512
  let hash := hash.Write masterKey
  let hash := hash.Write nonce
  let digest := hash.Sum []
  -- Use first 8 bytes as seed
  int64 (LittleEndian.Uint64 (digest.take 8))

/-! ## Vocabulary of the statements -/

section Vocabulary

variable {F : Type}

/-- The eight serialised coordinates of a pair of states, in stream order
    x, y, z, m, n, p, r, q. -/
def coordinates (v : Vector3 F × Vector5 F) : Mathlib.Vector F 8 :=
  ⟨[v.1.X, v.1.Y, v.1.Z, v.2.M, v.2.N, v.2.P, v.2.R, v.2.Q], rfl⟩

/-- One step of both integrators. -/
def rk4Step [Add F] [Sub F] [Mul F] [Div F] [OfScientific F] (dt : F)
    (v : Vector3 F × Vector5 F) : Vector3 F × Vector5 F :=
  (lorenzRK4 v.1 dt, hyperchaoticRK4 v.2 dt)

/-- The pair of states after exactly `n` steps from `v`. -/
def stateAfter [Add F] [Sub F] [Mul F] [Div F] [OfScientific F] (dt : F)
    (v : Vector3 F × Vector5 F) (n : Nat) : Vector3 F × Vector5 F :=
  (rk4Step dt)^[n] v

/-- What one pass of the loop appends to stream `k` when the states after the
    step are `v`: the encoding of coordinate `k` for `k < 8`, nothing for the
    streams 8, 9 and 10. -/
def streamChunk [HasFloat64bits F] (k : Fin 11) (v : Vector3 F × Vector5 F) : List Nat :=
  if h : k.val < 8 then float64ToBytes ((coordinates v).get ⟨k.val, h⟩) else []

/-- The bytes `n` passes append to stream `k`, starting from the states `v`. -/
def encodeTrajectory [Add F] [Sub F] [Mul F] [Div F] [OfScientific F] [HasFloat64bits F]
    (k : Fin 11) (dt : F) (v : Vector3 F × Vector5 F) : Nat → List Nat
  | 0 => []
  | n + 1 => encodeTrajectory k dt v n ++ streamChunk k (stateAfter dt v (n + 1))

/-- The byte of stream `t` at `pos` is the exclusive-or of the bytes of the
    streams `srcs` at `pos` (all of them present). -/
def IsXorOf (keys : Keys) (t : Fin 11) (srcs : List (Fin 11)) (pos : Nat) : Prop :=
  ∃ y : Nat, (keys.get t)[pos]? = some y ∧
    ∃ xs : List Nat, srcs.map (fun u => (keys.get u)[pos]?) = xs.map some ∧ y = xs.foldl (· ^^^ ·) 0

/-- The stream 8/9/10 XOR law of the specification for a bundle of `N` steps. -/
def XorLaw (keys : Keys) (N : Nat) : Prop :=
  ∀ i j, i < N → j < 8 →
    IsXorOf keys 8 [0, 3] (8 * i + j) ∧ IsXorOf keys 9 [1, 4] (8 * i + j) ∧
      IsXorOf keys 10 [2, 5, 7] (8 * i + j)

/-- Big-endian value of a run of bytes: the sum of `byte[j] * 256^(len-1-j)`. -/
def bigEndian (bs : List Nat) : Nat := bs.foldl (fun acc x => acc * 256 + x) 0

/-- State of the generator after `n` calls of `rand.Float64()` from state `g`. -/
def drawState {G : Type} (rng : MathRand G F) (g : G) (n : Nat) : G :=
  (fun s => (rng.Float64 s).2)^[n] g

/-- The value returned by call number `n + 1` of `rand.Float64()` from state
    `g`. -/
def draw {G : Type} (rng : MathRand G F) (g : G) (n : Nat) : F :=
  (rng.Float64 (drawState rng g n)).1

/-- Componentwise sum of two Lorenz states. -/
def Vector3.add [Add F] (u v : Vector3 F) : Vector3 F :=
  { X := u.X + v.X, Y := u.Y + v.Y, Z := u.Z + v.Z }

/-- Componentwise product of a scalar and a Lorenz state. -/
def Vector3.scale [Mul F] (s : F) (v : Vector3 F) : Vector3 F :=
  { X := s * v.X, Y := s * v.Y, Z := s * v.Z }

/-- Componentwise sum of two hyperchaotic states. -/
def Vector5.add [Add F] (u v : Vector5 F) : Vector5 F :=
  { M := u.M + v.M, N := u.N + v.N, P := u.P + v.P, R := u.R + v.R, Q := u.Q + v.Q }

/-- Componentwise product of a scalar and a hyperchaotic state. -/
def Vector5.scale [Mul F] (s : F) (v : Vector5 F) : Vector5 F :=
  { M := s * v.M, N := s * v.N, P := s * v.P, R := s * v.R, Q := s * v.Q }

/-- The classical RK4 update of the specification (§4.3) for a vector field
    `f`, over a state type with the sum `vadd` and the scalar product `smul`:
    `k1 = f(v)`, `k2 = f(v + (1/2)*dt*k1)`, `k3 = f(v + (1/2)*dt*k2)`,
    `k4 = f(v + dt*k3)`, result `v + (dt/6)*(k1 + 2*k2 + 2*k3 + k4)`, every
    sum and product taken left to right. -/
def classicalRK4 {V : Type} [Mul F] [Div F] [OfScientific F] (vadd : V → V → V)
    (smul : F → V → V) (f : V → V) (v : V) (dt : F) : V :=
  let k1 := f v
  let k2 := f (vadd v (smul (1.0 / 2.0 * dt) k1))
  let k3 := f (vadd v (smul (1.0 / 2.0 * dt) k2))
  let k4 := f (vadd v (smul dt k3))
  vadd v (smul (dt / 6.0) (vadd (vadd (vadd k1 (smul 2.0 k2)) (smul 2.0 k3)) k4))

/-- The Lorenz vector field of the specification, with sigma = 10, rho = 28
    and beta = 8/3 written out. -/
def lorenzField [Sub F] [Mul F] [Div F] [OfScientific F] (v : Vector3 F) : Vector3 F :=
  { X := 10.0 * (v.Y - v.X)
    Y := v.X * (28.0 - v.Z) - v.Y
    Z := v.X * v.Y - 8.0 / 3.0 * v.Z }

/-- The hyperchaotic vector field of the specification, with a = 30, b = 11
    and c = 90 written out. -/
def hyperField [Add F] [Sub F] [Mul F] [OfScientific F] (v : Vector5 F) : Vector5 F :=
  { M := 30.0 * (v.N - v.M)
    N := v.M * (11.0 - v.P) - v.N + v.Q
    P := v.M * v.N - 90.0 * v.P
    R := v.N * v.P - v.R
    Q := v.R - v.Q }

/-- The reflection S(x, y, z) = (-x, -y, z). -/
def reflect [Neg F] (v : Vector3 F) : Vector3 F :=
  { X := -v.X, Y := -v.Y, Z := v.Z }

/-- Comparison of two binary64 Lorenz states with `==`, field by field. -/
def Vector3.numEq (u v : Vector3 Float64) : Bool :=
  u.X.equal v.X && u.Y.equal v.Y && u.Z.equal v.Z

/-- Quotient of `num` by `den` rounded to nearest, ties to even. -/
def Float64.rne (num den : Nat) : Nat :=
  if 2 * (num % den) > den ∨ (2 * (num % den) = den ∧ num / den % 2 = 1) then num / den + 1
  else num / den

/-- Biased exponent `round` selects for n / d before rounding the mantissa. -/
def Float64.biasedExp (n d : Nat) : Nat :=
  max (Float64.ilog2 n + 1023 -
    (Float64.ilog2 d + (if n <<< Float64.ilog2 d < d <<< Float64.ilog2 n then 1 else 0))) 1

/-- The process-wide generator with a `rand.Seed` that has no effect: from
    Go 1.24 on, the top-level `rand.Seed` is a no-op unless the program is
    built or run with GODEBUG `randseednop=0`.  The draws are those of `rng`. -/
def seedNoOp {G : Type} (rng : MathRand G F) : MathRand G F where
  Seed _ g := g
  Float64 := rng.Float64

/-- Agreement of two binary64 values up to the sign of a zero and up to the
    sign and payload of a NaN: they compare equal with `==`, or both are
    NaN. -/
def Float64.same (x y : Float64) : Bool := (x.isNaN && y.isNaN) || x.equal y

/-- Agreement of two binary64 Lorenz states in the sense of `Float64.same`,
    field by field. -/
def Vector3.same (u v : Vector3 Float64) : Bool :=
  u.X.same v.X && u.Y.same v.Y && u.Z.same v.Z

/-- What a binary64 value denotes: not a number, an infinity with its sign,
    or a finite number in units of 2^-1074 (the two zeros denote the same
    number). -/
inductive Float64.View where
  | nan : Float64.View
  | inf (negative : Bool) : Float64.View
  | fin (t : Int) : Float64.View
deriving DecidableEq

/-- The denotation of a pattern. -/
def Float64.view (x : Float64) : Float64.View :=
  if x.isNaN then Float64.View.nan
  else if x.isInf then Float64.View.inf (x.sign == 1)
  else Float64.View.fin x.scaled

/-- Denotation of the quotient t / 2^K after rounding. -/
def Float64.View.ofRound (t : Int) (K : Nat) : Float64.View :=
  Float64.view (Float64.round (if t < 0 then 1 else 0) t.natAbs (1 <<< K))

/-- Negation on denotations. -/
def Float64.View.neg : Float64.View → Float64.View
  | Float64.View.nan => Float64.View.nan
  | Float64.View.inf s => Float64.View.inf (!s)
  | Float64.View.fin t => Float64.View.fin (-t)

/-- Rounded sum on denotations. -/
def Float64.View.add : Float64.View → Float64.View → Float64.View
  | Float64.View.nan, _ => Float64.View.nan
  | Float64.View.inf _, Float64.View.nan => Float64.View.nan
  | Float64.View.inf s, Float64.View.inf r =>
    if s = r then Float64.View.inf s else Float64.View.nan
  | Float64.View.inf s, Float64.View.fin _ => Float64.View.inf s
  | Float64.View.fin _, Float64.View.nan => Float64.View.nan
  | Float64.View.fin _, Float64.View.inf r => Float64.View.inf r
  | Float64.View.fin a, Float64.View.fin b =>
    if a + b = 0 then Float64.View.fin 0 else Float64.View.ofRound (a + b) 1074

/-- Rounded difference on denotations. -/
def Float64.View.sub (u w : Float64.View) : Float64.View :=
  Float64.View.add u (Float64.View.neg w)

/-- Rounded product on denotations. -/
def Float64.View.mul : Float64.View → Float64.View → Float64.View
  | Float64.View.nan, _ => Float64.View.nan
  | Float64.View.inf _, Float64.View.nan => Float64.View.nan
  | Float64.View.inf s, Float64.View.inf r => Float64.View.inf (s != r)
  | Float64.View.inf s, Float64.View.fin b =>
    if b = 0 then Float64.View.nan else Float64.View.inf (s != decide (b < 0))
  | Float64.View.fin _, Float64.View.nan => Float64.View.nan
  | Float64.View.fin a, Float64.View.inf r =>
    if a = 0 then Float64.View.nan else Float64.View.inf (decide (a < 0) != r)
  | Float64.View.fin a, Float64.View.fin b =>
    if a * b = 0 then Float64.View.fin 0 else Float64.View.ofRound (a * b) 2148

/-- Two binary64 Lorenz states that denote mirror images of each other under
    S(x, y, z) = (-x, -y, z). -/
def Vector3.Mirror (u w : Vector3 Float64) : Prop :=
  Float64.view u.X = Float64.View.neg (Float64.view w.X) ∧
  Float64.view u.Y = Float64.View.neg (Float64.view w.Y) ∧
  Float64.view u.Z = Float64.view w.Z

end Vocabulary

/-! ## Checks of the numeric and hash models against known values -/

section ModelChecks

/-- Literals and operations of the binary64 model agree with IEEE-754 on
    some well-known values: 0.01, 100.0, 8/3, 0.1 + 0.2, 1/3, -1, the
    infinities, NaN, the smallest subnormal and its halving to zero, and
    overflow of the largest finite value. -/
theorem Float64.known_values :
    (0.01 : Float64).bits = 0x3F847AE147AE147B ∧
    (100.0 : Float64).bits = 0x4059000000000000 ∧
    (beta : Float64).bits = 0x4005555555555555 ∧
    ((0.1 : Float64) + 0.2).bits = 0x3FD3333333333334 ∧
    ((1.0 : Float64) / 3.0).bits = 0x3FD5555555555555 ∧
    (-(1.0 : Float64)).bits = 0xBFF0000000000000 ∧
    ((1.0 : Float64) / 0.0).bits = 0x7FF0000000000000 ∧
    ((-1.0 : Float64) / 0.0).bits = 0xFFF0000000000000 ∧
    (((1.0 : Float64) / 0.0) - (1.0 / 0.0)).isNaN = true ∧
    ((0.0 : Float64) / 0.0).isNaN = true ∧
    (Float64.ofBits 1 / 2.0).bits = 0 ∧
    (Float64.ofBits 0x7FEFFFFFFFFFFFFF * 10.0).bits = 0x7FF0000000000000 := by
  decide

set_option maxRecDepth 100000 in
/-- The hash model returns the FIPS 202 digest of the empty message, and the
    seed derived from empty master key and nonce is its first eight bytes
    read little-endian as a signed integer. -/
theorem Keccak.sha3_512_nil :
    Keccak.sha3_512 [] =
      [0xa6, 0x9f, 0x73, 0xcc, 0xa2, 0x3a, 0x9a, 0xc5, 0xc8, 0xb5, 0x67, 0xdc, 0x18, 0x5a, 0x75,
       0x6e, 0x97, 0xc9, 0x82, 0x16, 0x4f, 0xe2, 0x58, 0x59, 0xe0, 0xd1, 0xdc, 0xc1, 0x47, 0x5c,
       0x80, 0xa6, 0x15, 0xb2, 0x12, 0x3a, 0xf1, 0xf5, 0xf9, 0x4c, 0x11, 0xe3, 0xe9, 0x40, 0x2c,
       0x3a, 0xc5, 0x58, 0xf5, 0x00, 0x19, 0x9d, 0x95, 0xb6, 0xd3, 0xe3, 0x01, 0x75, 0x85, 0x86,
       0x28, 0x1d, 0xcd, 0x26] ∧
    deriveChaosParams [] [] = -4207986430935064666 := by
  decide

end ModelChecks

/-! ## Lemmas on the key stream assembler -/

section AssemblerLemmas

theorem Keys.get_empty (k : Fin 11) : Keys.empty.get k = [] := by
  unfold Keys.empty
  exact Mathlib.Vector.get_replicate _ _

theorem Keys.get_append (keys : Keys) (k j : Fin 11) (bs : List Nat) :
    (keys.append k bs).get j = keys.get j ++ (if k = j then bs else []) := by
  by_cases h : k = j
  · subst h
    simp [Keys.append]
  · simp [Keys.append, Mathlib.Vector.get_set_of_ne h, h]

variable {F G : Type} [HasFloat64bits F]

theorem float64ToBytes_length (f : F) : (float64ToBytes f).length = 8 := rfl

theorem streamChunk_length (k : Fin 11) (v : Vector3 F × Vector5 F) :
    (streamChunk k v).length = if k.val < 8 then 8 else 0 := by
  unfold streamChunk
  split <;> simp [float64ToBytes_length]

variable [Add F] [Sub F] [Mul F] [Div F] [OfScientific F]

omit [HasFloat64bits F] in
theorem stateAfter_succ (dt : F) (v : Vector3 F × Vector5 F) (n : Nat) :
    stateAfter dt v (n + 1) = stateAfter dt (rk4Step dt v) n := by
  simp [stateAfter, Function.iterate_succ_apply]

theorem loopBody_states (dt : F) (s : LoopState F) :
    ((loopBody dt s).vLorenz, (loopBody dt s).vHyper) = rk4Step dt (s.vLorenz, s.vHyper) := rfl

theorem loopBody_keys (dt : F) (s : LoopState F) (k : Fin 11) :
    (loopBody dt s).keys.get k =
      s.keys.get k ++ streamChunk k (rk4Step dt (s.vLorenz, s.vHyper)) := by
  simp only [loopBody, Keys.get_append, List.append_assoc]
  congr 1
  fin_cases k <;> rfl

theorem encodeTrajectory_front (k : Fin 11) (dt : F) (v : Vector3 F × Vector5 F) (n : Nat) :
    encodeTrajectory k dt v (n + 1) =
      streamChunk k (rk4Step dt v) ++ encodeTrajectory k dt (rk4Step dt v) n := by
  induction n with
  | zero => simp [encodeTrajectory, stateAfter]
  | succ n ih =>
    rw [encodeTrajectory, ih, encodeTrajectory, List.append_assoc, stateAfter_succ dt v (n + 1)]

theorem loop_states (dt : F) (n : Nat) (s : LoopState F) :
    ((loop dt n s).vLorenz, (loop dt n s).vHyper) = stateAfter dt (s.vLorenz, s.vHyper) n := by
  induction n generalizing s with
  | zero => rfl
  | succ n ih => rw [loop, ih, loopBody_states, stateAfter_succ]

theorem loop_keys (dt : F) (n : Nat) (s : LoopState F) (k : Fin 11) :
    (loop dt n s).keys.get k =
      s.keys.get k ++ encodeTrajectory k dt (s.vLorenz, s.vHyper) n := by
  induction n generalizing s with
  | zero => simp [loop, encodeTrajectory]
  | succ n ih =>
    rw [loop, ih, loopBody_keys, encodeTrajectory_front, List.append_assoc, loopBody_states]

/-- The stream `k` of the returned bundle is the encoded trajectory from the
    initial states. -/
theorem generateChaosKeys_get (rng : MathRand G F) (g : G) (seed steps : Int) (dt : F)
    (k : Fin 11) :
    (generateChaosKeys rng g seed steps dt).1.get k =
      encodeTrajectory k dt (initChaos rng g seed).1 steps.toNat := by
  simp [generateChaosKeys, loop_keys, Keys.get_empty]

theorem encodeTrajectory_length (k : Fin 11) (dt : F) (v : Vector3 F × Vector5 F) (n : Nat) :
    (encodeTrajectory k dt v n).length = if k.val < 8 then 8 * n else 0 := by
  induction n with
  | zero => simp [encodeTrajectory]
  | succ n ih =>
    rw [encodeTrajectory, List.length_append, ih, streamChunk_length]
    split <;> omega

theorem encodeTrajectory_slice (k : Fin 11) (dt : F) (v : Vector3 F × Vector5 F) (n i : Nat)
    (hi : i < n) :
    ((encodeTrajectory k dt v n).drop (8 * i)).take 8 = streamChunk k (stateAfter dt v (i + 1)) := by
  induction n with
  | zero => omega
  | succ n ih =>
    by_cases hk : k.val < 8
    · have hlen := encodeTrajectory_length k dt v n
      have hc := streamChunk_length k (stateAfter dt v (n + 1))
      simp only [hk, if_true] at hlen hc
      rw [encodeTrajectory]
      rcases Nat.lt_succ_iff_lt_or_eq.mp hi with h | h
      · rw [List.drop_append_of_le_length (by omega), List.take_append_of_le_length]
        · exact ih h
        · rw [List.length_drop]; omega
      · subst h
        rw [← hlen, List.drop_left, ← hc, List.take_length]
    · have h0 : ∀ m, encodeTrajectory k dt v m = [] := fun m =>
        List.length_eq_zero.mp (by rw [encodeTrajectory_length]; simp [hk])
      simp [h0, streamChunk, hk]

omit [HasFloat64bits F] in
theorem stateAfter_fst (dt : F) (v : Vector3 F × Vector5 F) (n : Nat) :
    (stateAfter dt v n).1 = (fun u => lorenzRK4 u dt)^[n] v.1 := by
  induction n generalizing v with
  | zero => rfl
  | succ n ih => rw [stateAfter_succ, ih, Function.iterate_succ_apply]; rfl

omit [HasFloat64bits F] in
theorem stateAfter_snd (dt : F) (v : Vector3 F × Vector5 F) (n : Nat) :
    (stateAfter dt v n).2 = (fun u => hyperchaoticRK4 u dt)^[n] v.2 := by
  induction n generalizing v with
  | zero => rfl
  | succ n ih => rw [stateAfter_succ, ih, Function.iterate_succ_apply]; rfl

/-- Streams 8, 9 and 10 of the returned bundle are empty. -/
theorem generateChaosKeys_get_high (rng : MathRand G F) (g : G) (seed steps : Int) (dt : F)
    (k : Fin 11) (hk : 8 ≤ k.val) : (generateChaosKeys rng g seed steps dt).1.get k = [] := by
  apply List.length_eq_zero.mp
  rw [generateChaosKeys_get, encodeTrajectory_length, if_neg (by omega)]

/-- Streams 0 to 7 of the returned bundle have eight bytes per pass. -/
theorem generateChaosKeys_length_low (rng : MathRand G F) (g : G) (seed steps : Int) (dt : F)
    (k : Fin 11) (hk : k.val < 8) :
    ((generateChaosKeys rng g seed steps dt).1.get k).length = 8 * steps.toNat := by
  rw [generateChaosKeys_get, encodeTrajectory_length, if_pos hk]

end AssemblerLemmas

/-! ## Stream lengths (C1) -/

section StreamLength

variable {F G : Type} [Add F] [Sub F] [Mul F] [Div F] [OfScientific F] [HasFloat64bits F]

/-- C1, as stated, fails: after one step (seed 0, dt = 0.01, SplitMix64
    generator) stream 8 of the returned bundle does not have length 8 * 1. -/
theorem stream8_length_ne_eight :
    ((generateChaosKeys splitMix64 0 0 1 (0.01 : Float64)).1.get 8).length ≠ 8 * 1 := by
  rw [generateChaosKeys_get_high splitMix64 0 0 1 (0.01 : Float64) 8 (by decide)]
  decide

/-- C1, amended: for every generator, seed, dt and step count N, each of the
    streams 0 to 7 returned by generateChaosKeys has length exactly 8 * N (so
    these eight have the same length), and each of the streams 8, 9 and 10 has
    length 0. -/
theorem generateChaosKeys_stream_lengths (rng : MathRand G F) (g : G) (seed : Int) (N : Nat)
    (dt : F) :
    (∀ k : Fin 11, k.val < 8 →
        ((generateChaosKeys rng g seed (N : Int) dt).1.get k).length = 8 * N) ∧
    (∀ k : Fin 11, 8 ≤ k.val →
        ((generateChaosKeys rng g seed (N : Int) dt).1.get k).length = 0) := by
  constructor
  · intro k hk
    rw [generateChaosKeys_length_low rng g seed N dt k hk, Int.toNat_ofNat]
  · intro k hk
    rw [generateChaosKeys_get_high rng g seed N dt k hk, List.length_nil]

end StreamLength

/-! ## The XOR law (C2) -/

section XorMix

variable {F G : Type} [Add F] [Sub F] [Mul F] [Div F] [OfScientific F] [HasFloat64bits F]

/-- C2, as stated, fails: the bundle of one step (seed 0, dt = 0.01,
    SplitMix64 generator) does not satisfy the stream 8/9/10 XOR law; stream 8
    has no byte at offset 0. -/
theorem xorLaw_fails_one_step :
    ¬ XorLaw (generateChaosKeys splitMix64 0 0 1 (0.01 : Float64)).1 1 := by
  intro h
  obtain ⟨⟨y, hy, _⟩, _⟩ := h 0 0 (by decide) (by decide)
  rw [generateChaosKeys_get_high splitMix64 0 0 1 (0.01 : Float64) 8 (by decide)] at hy
  simp at hy

/-- C2, amended: the returned bundle carries no XOR mix.  For every generator,
    seed, dt, N, step index i < N and byte offset j < 8, the streams 8, 9 and
    10 have no byte at position 8i+j (they are empty), while each of the
    streams 0 to 7 has one. -/
theorem generateChaosKeys_no_mix (rng : MathRand G F) (g : G) (seed : Int) (N : Nat) (dt : F)
    (i j : Nat) (hi : i < N) (hj : j < 8) :
    ((generateChaosKeys rng g seed (N : Int) dt).1.get 8)[8 * i + j]? = none ∧
    ((generateChaosKeys rng g seed (N : Int) dt).1.get 9)[8 * i + j]? = none ∧
    ((generateChaosKeys rng g seed (N : Int) dt).1.get 10)[8 * i + j]? = none ∧
    ∀ k : Fin 11, k.val < 8 →
      ((generateChaosKeys rng g seed (N : Int) dt).1.get k)[8 * i + j]? ≠ none := by
  refine ⟨?_, ?_, ?_, ?_⟩
  · rw [generateChaosKeys_get_high rng g seed N dt 8 (by decide)]; rfl
  · rw [generateChaosKeys_get_high rng g seed N dt 9 (by decide)]; rfl
  · rw [generateChaosKeys_get_high rng g seed N dt 10 (by decide)]; rfl
  · intro k hk hnone
    have hlen := generateChaosKeys_length_low rng g seed N dt k hk
    rw [Int.toNat_ofNat] at hlen
    rw [List.getElem?_eq_none_iff] at hnone
    omega

/-- Witness of `generateChaosKeys_no_mix` at N = 1, i = 0, j = 0. -/
theorem generateChaosKeys_no_mix_witness :
    ((generateChaosKeys splitMix64 0 0 ((1 : Nat) : Int) (0.01 : Float64)).1.get 8)[8 * 0 + 0]?
        = none ∧
    ((generateChaosKeys splitMix64 0 0 ((1 : Nat) : Int) (0.01 : Float64)).1.get 9)[8 * 0 + 0]?
        = none ∧
    ((generateChaosKeys splitMix64 0 0 ((1 : Nat) : Int) (0.01 : Float64)).1.get 10)[8 * 0 + 0]?
        = none ∧
    ∀ k : Fin 11, k.val < 8 →
      ((generateChaosKeys splitMix64 0 0 ((1 : Nat) : Int) (0.01 : Float64)).1.get k)[8 * 0 + 0]?
        ≠ none :=
  generateChaosKeys_no_mix splitMix64 0 0 1 (0.01 : Float64) 0 0 (by decide) (by decide)

end XorMix

/-! ## What the streams 0 to 7 carry (C3) -/

section Serialisation

variable {F G : Type} [Add F] [Sub F] [Mul F] [Div F] [OfScientific F] [HasFloat64bits F]

/-- C3: for every generator, seed, dt, N, every step index i < N and every
    k in 0..7, bytes 8i..8i+7 of stream k returned by generateChaosKeys equal
    float64ToBytes of coordinate k (order x, y, z, m, n, p, r, q) of the state
    reached by exactly i+1 RK4 steps from initChaos(seed), where the Lorenz
    part is i+1 applications of lorenzRK4 and the hyperchaotic part i+1
    applications of hyperchaoticRK4.  The stream has 8N bytes, so the initial
    state is never serialised, and the last 8 bytes of stream 0 encode the
    Lorenz x after N steps. -/
theorem generateChaosKeys_serialises (rng : MathRand G F) (g : G) (seed : Int) (dt : F)
    (N i : Nat) (hi : i < N) (k : Fin 8) :
    (((generateChaosKeys rng g seed (N : Int) dt).1.get (Fin.castLE (by decide) k)).drop
        (8 * i)).take 8 =
      float64ToBytes ((coordinates (stateAfter dt (initChaos rng g seed).1 (i + 1))).get k) ∧
    (stateAfter dt (initChaos rng g seed).1 (i + 1)).1 =
      (fun u => lorenzRK4 u dt)^[i + 1] (initChaos rng g seed).1.1 ∧
    (stateAfter dt (initChaos rng g seed).1 (i + 1)).2 =
      (fun u => hyperchaoticRK4 u dt)^[i + 1] (initChaos rng g seed).1.2 ∧
    ((generateChaosKeys rng g seed (N : Int) dt).1.get (Fin.castLE (by decide) k)).length
      = 8 * N ∧
    ((generateChaosKeys rng g seed (N : Int) dt).1.get 0).drop (8 * (N - 1)) =
      float64ToBytes ((fun u => lorenzRK4 u dt)^[N] (initChaos rng g seed).1.1).X := by
  have hk : (Fin.castLE (by decide : 8 ≤ 11) k).val < 8 := k.isLt
  refine ⟨?_, stateAfter_fst _ _ _, stateAfter_snd _ _ _, ?_, ?_⟩
  · rw [generateChaosKeys_get, Int.toNat_ofNat, encodeTrajectory_slice _ _ _ _ _ hi,
      streamChunk, dif_pos hk]
    rfl
  · rw [generateChaosKeys_length_low rng g seed N dt _ hk, Int.toNat_ofNat]
  · have hN : N - 1 < N := by omega
    have hlen : ((generateChaosKeys rng g seed (N : Int) dt).1.get 0).length = 8 * N := by
      rw [generateChaosKeys_length_low rng g seed N dt 0 (by decide), Int.toNat_ofNat]
    have hget : (generateChaosKeys rng g seed (N : Int) dt).1.get 0 =
        encodeTrajectory 0 dt (initChaos rng g seed).1 N := by
      rw [generateChaosKeys_get, Int.toNat_ofNat]
    have hslice := encodeTrajectory_slice (0 : Fin 11) dt (initChaos rng g seed).1 N (N - 1) hN
    rw [← hget, List.take_of_length_le (by rw [List.length_drop, hlen]; omega)] at hslice
    rw [hslice, streamChunk, dif_pos (by decide), ← stateAfter_fst, Nat.sub_add_cancel (by omega)]
    rfl

/-- Witness of `generateChaosKeys_serialises` at N = 2, i = 1, k = 0 (seed 42,
    dt = 0.01, SplitMix64 generator). -/
theorem generateChaosKeys_serialises_witness :
    1 < 2 ∧
    ((((generateChaosKeys splitMix64 0 42 ((2 : Nat) : Int) (0.01 : Float64)).1.get
        (Fin.castLE (by decide) (0 : Fin 8))).drop (8 * 1)).take 8 =
      float64ToBytes
        ((coordinates (stateAfter (0.01 : Float64) (initChaos splitMix64 0 42).1 (1 + 1))).get 0) ∧
    (stateAfter (0.01 : Float64) (initChaos splitMix64 0 42).1 (1 + 1)).1 =
      (fun u => lorenzRK4 u (0.01 : Float64))^[1 + 1] (initChaos splitMix64 0 42).1.1 ∧
    (stateAfter (0.01 : Float64) (initChaos splitMix64 0 42).1 (1 + 1)).2 =
      (fun u => hyperchaoticRK4 u (0.01 : Float64))^[1 + 1] (initChaos splitMix64 0 42).1.2 ∧
    ((generateChaosKeys splitMix64 0 42 ((2 : Nat) : Int) (0.01 : Float64)).1.get
        (Fin.castLE (by decide) (0 : Fin 8))).length = 8 * 2 ∧
    ((generateChaosKeys splitMix64 0 42 ((2 : Nat) : Int) (0.01 : Float64)).1.get 0).drop
        (8 * (2 - 1)) =
      float64ToBytes
        ((fun u => lorenzRK4 u (0.01 : Float64))^[2] (initChaos splitMix64 0 42).1.1).X) :=
  ⟨by decide, generateChaosKeys_serialises splitMix64 0 42 (0.01 : Float64) 2 1 (by decide) 0⟩

end Serialisation

/-! ## Seed derivation (C4) -/

section SeedDerivation

theorem or_shiftLeft_eq_add (x y n : Nat) (hx : x < 2 ^ n) : x ||| (y <<< n) = x + y * 2 ^ n := by
  rw [Nat.lor_comm, Nat.shiftLeft_eq, Nat.mul_comm, ← Nat.mul_add_lt_is_or hx y, Nat.add_comm]

/-- A run of bytes reads little-endian as the sum of `b[k] * 256^k`. -/
theorem LittleEndian.Uint64_eq_sum (d : List Nat) (hd : ∀ k, d.getD k 0 < 256) :
    LittleEndian.Uint64 d = ∑ k in Finset.range 8, d.getD k 0 * 256 ^ k := by
  have h0 := hd 0
  have h1 := hd 1
  have h2 := hd 2
  have h3 := hd 3
  have h4 := hd 4
  have h5 := hd 5
  have h6 := hd 6
  unfold LittleEndian.Uint64
  rw [or_shiftLeft_eq_add _ _ 8 (by omega), or_shiftLeft_eq_add _ _ 16 (by omega),
    or_shiftLeft_eq_add _ _ 24 (by omega), or_shiftLeft_eq_add _ _ 32 (by omega),
    or_shiftLeft_eq_add _ _ 40 (by omega), or_shiftLeft_eq_add _ _ 48 (by omega),
    or_shiftLeft_eq_add _ _ 56 (by omega)]
  simp only [Finset.sum_range_succ, Finset.sum_range_zero]
  norm_num

theorem sum_bytes_lt (f : Nat → Nat) (hf : ∀ k, f k < 256) :
    ∑ k in Finset.range 8, f k * 256 ^ k < 2 ^ 64 := by
  have h0 := hf 0
  have h1 := hf 1
  have h2 := hf 2
  have h3 := hf 3
  have h4 := hf 4
  have h5 := hf 5
  have h6 := hf 6
  have h7 := hf 7
  simp only [Finset.sum_range_succ, Finset.sum_range_zero]
  norm_num
  omega

theorem Keccak.sha3_512_length (msg : List Nat) : (Keccak.sha3_512 msg).length = 64 := by
  simp [Keccak.sha3_512]

theorem Keccak.sha3_512_getD_lt (msg : List Nat) (k : Nat) :
    (Keccak.sha3_512 msg).getD k 0 < 256 := by
  rw [List.getD_eq_getElem?_getD]
  by_cases hk : k < (Keccak.sha3_512 msg).length
  · rw [List.getElem?_eq_getElem hk]
    simp only [Keccak.sha3_512, List.getElem_map, Option.getD_some]
    exact Nat.mod_lt _ (by decide)
  · rw [List.getElem?_eq_none (by omega)]
    decide

theorem getD_take_of_lt (d : List Nat) (n k : Nat) (hk : k < n) :
    (d.take n).getD k 0 = d.getD k 0 := by
  simp [List.getD_eq_getElem?_getD, List.getElem?_take, hk]

/-- The running hash after writing `masterKey` and then `nonce` is the hash of
    the concatenation. -/
theorem sum_write_write (masterKey nonce : List Nat) :
    ((New512.Write masterKey).Write nonce).Sum [] = Keccak.sha3_512 (masterKey ++ nonce) := by
  simp [New512, SHA3.Write, SHA3.Sum]

theorem deriveChaosParams_eq_int64 (masterKey nonce : List Nat) :
    deriveChaosParams masterKey nonce =
      int64 (LittleEndian.Uint64 ((Keccak.sha3_512 (masterKey ++ nonce)).take 8)) := by
  simp [deriveChaosParams, New512, SHA3.Write, SHA3.Sum]

/-- C4: for all byte sequences masterKey and nonce (empty ones included),
    writing masterKey then nonce into the hash gives SHA3-512 of the plain
    concatenation, and deriveChaosParams(masterKey, nonce) is the sum of
    digest[k] * 256^k over k < 8 (the first 8 digest bytes, little-endian),
    minus 2^64 when that sum is at least 2^63 (the signed two's-complement
    reading of the same 64 bits); the seed lies in [-2^63, 2^63). -/
theorem deriveChaosParams_spec (masterKey nonce : List Nat) :
    ((New512.Write masterKey).Write nonce).Sum [] = Keccak.sha3_512 (masterKey ++ nonce) ∧
    deriveChaosParams masterKey nonce =
      ((∑ k in Finset.range 8, (Keccak.sha3_512 (masterKey ++ nonce)).getD k 0 * 256 ^ k : Nat)
          : Int) -
        (if 2 ^ 63 ≤ ∑ k in Finset.range 8, (Keccak.sha3_512 (masterKey ++ nonce)).getD k 0 * 256 ^ k
          then 2 ^ 64 else 0) ∧
    -(2 : Int) ^ 63 ≤ deriveChaosParams masterKey nonce ∧
    deriveChaosParams masterKey nonce < (2 : Int) ^ 63 := by
  have hsum : LittleEndian.Uint64 ((Keccak.sha3_512 (masterKey ++ nonce)).take 8) =
      ∑ k in Finset.range 8, (Keccak.sha3_512 (masterKey ++ nonce)).getD k 0 * 256 ^ k := by
    rw [LittleEndian.Uint64_eq_sum]
    · apply Finset.sum_congr rfl
      intro k hk
      rw [getD_take_of_lt _ _ _ (Finset.mem_range.mp hk)]
    · intro k
      by_cases hk : k < 8
      · rw [getD_take_of_lt _ _ _ hk]
        exact Keccak.sha3_512_getD_lt _ _
      · rw [List.getD_eq_default _ _ (by rw [List.length_take]; omega)]
        decide
  have hlt := sum_bytes_lt (fun k => (Keccak.sha3_512 (masterKey ++ nonce)).getD k 0)
    (Keccak.sha3_512_getD_lt _)
  simp only at hlt
  rw [deriveChaosParams_eq_int64, hsum]
  refine ⟨sum_write_write _ _, ?_, ?_, ?_⟩
  · unfold int64
    split <;> split <;> omega
  · unfold int64
    split <;> omega
  · unfold int64
    split <;> omega

end SeedDerivation

/-! ## Determinism (C5) -/

section Determinism

variable {F G : Type} [Add F] [Sub F] [Mul F] [Div F] [OfScientific F] [HasFloat64bits F]

/-- The resetting case: under a `rand.Seed` that resets the process-wide
    generator (the state it leaves depends on the seed only, as before Go
    1.24 or with GODEBUG `randseednop=0`), two calls of generateChaosKeys
    with the same (seed, N, dt) return the same bundle whatever state the
    generator was in before each call, and hence so do two calls with the
    seed derived from the same (masterKey, nonce). -/
theorem generateChaosKeys_deterministic (rng : MathRand G F)
    (hSeed : ∀ (seed : Int) (g1 g2 : G), rng.Seed seed g1 = rng.Seed seed g2)
    (g1 g2 : G) (seed steps : Int) (dt : F) :
    generateChaosKeys rng g1 seed steps dt = generateChaosKeys rng g2 seed steps dt ∧
    ∀ masterKey nonce : List Nat,
      (generateChaosKeys rng g1 (deriveChaosParams masterKey nonce) steps dt).1 =
        (generateChaosKeys rng g2 (deriveChaosParams masterKey nonce) steps dt).1 := by
  have key : ∀ s : Int, generateChaosKeys rng g1 s steps dt = generateChaosKeys rng g2 s steps dt := by
    intro s
    unfold generateChaosKeys initChaos
    rw [hSeed s g1 g2]
  exact ⟨key seed, fun masterKey nonce => by rw [key]⟩

/-- Witness of `generateChaosKeys_deterministic`: the SplitMix64 generator,
    prior states 0 and 12345, seed 42, N = 10, dt = 0.01. -/
theorem generateChaosKeys_deterministic_witness :
    (∀ (seed : Int) (g1 g2 : Nat), splitMix64.Seed seed g1 = splitMix64.Seed seed g2) ∧
    (generateChaosKeys splitMix64 0 42 10 (0.01 : Float64) =
        generateChaosKeys splitMix64 12345 42 10 (0.01 : Float64) ∧
      ∀ masterKey nonce : List Nat,
        (generateChaosKeys splitMix64 0 (deriveChaosParams masterKey nonce) 10
            (0.01 : Float64)).1 =
          (generateChaosKeys splitMix64 12345 (deriveChaosParams masterKey nonce) 10
            (0.01 : Float64)).1) :=
  ⟨fun _ _ _ => rfl,
    generateChaosKeys_deterministic splitMix64 (fun _ _ _ => rfl) 0 12345 42 10 (0.01 : Float64)⟩

set_option maxRecDepth 100000 in
/-- C5 fails on the code where `rand.Seed` has no effect (the default from Go
    1.24 on).  Two calls of generateChaosKeys(42, 1, 0.01) in a row, the
    second on the generator state the first one left, return different
    bundles; every call leaves the generator eight draws further than it
    found it, and its result is the same for every seed. -/
theorem generateChaosKeys_seed_ignored :
    (generateChaosKeys (seedNoOp splitMix64)
        (generateChaosKeys (seedNoOp splitMix64) 0 42 1 (0.01 : Float64)).2 42 1
        (0.01 : Float64)).1 ≠
      (generateChaosKeys (seedNoOp splitMix64) 0 42 1 (0.01 : Float64)).1 ∧
    ∀ (rng : MathRand Nat Float64) (g : Nat) (seed seed2 steps : Int) (dt : Float64),
      (generateChaosKeys (seedNoOp rng) g seed steps dt).2 = drawState rng g 8 ∧
      generateChaosKeys (seedNoOp rng) g seed steps dt =
        generateChaosKeys (seedNoOp rng) g seed2 steps dt :=
  ⟨by decide, fun _ _ _ _ _ _ => ⟨rfl, rfl⟩⟩

end Determinism

/-! ## Argument order of the seed derivation (C10) -/

section SeedOrdering

/-- C10, as stated, fails: the hand-picked pair (masterKey = "", nonce = "a")
    and (masterKey = "a", nonce = "") does not yield different seeds. -/
theorem seeds_empty_a_not_distinct :
    ¬ (deriveChaosParams [] [97] ≠ deriveChaosParams [97] []) := by
  intro h
  apply h
  rw [deriveChaosParams_eq_int64, deriveChaosParams_eq_int64]
  rfl

set_option maxRecDepth 100000 in
/-- C10, amended: the hand-picked pair (masterKey = "", nonce = "a") and
    (masterKey = "a", nonce = "") yields the same seed, the one derived from
    SHA3-512("a"), which is -8949934071296983191; an empty component leaves no
    trace of the argument position. -/
theorem seeds_empty_a_equal :
    deriveChaosParams [] [97] = deriveChaosParams [97] [] ∧
    deriveChaosParams [97] [] = -8949934071296983191 := by
  refine ⟨?_, by decide⟩
  rw [deriveChaosParams_eq_int64, deriveChaosParams_eq_int64]
  rfl

end SeedOrdering

/-! ## Byte order of `float64ToBytes` (C8, C9) -/

section ByteOrder

variable {F : Type} [HasFloat64bits F]

theorem byte_eq_and (x : Nat) : byte x = x &&& 0xFF :=
  (Nat.and_pow_two_sub_one_eq_mod x 8).symm

/-- Reassembling the eight bytes big-endian gives back the bit pattern. -/
theorem float64ToBytes_sum (f : F) :
    ∑ j in Finset.range 8, (float64ToBytes f).getD j 0 * 256 ^ (7 - j) = Float64bits f := by
  have hlt : Float64bits f < 2 ^ 64 := Float64bits_lt f
  simp only [Finset.sum_range_succ, Finset.sum_range_zero, float64ToBytes, byte,
    Nat.shiftRight_eq_div_pow]
  generalize Float64bits f = x at hlt ⊢
  norm_num at hlt ⊢
  omega

/-- C8: endianness.  For every float64 f with bit pattern bits,
    float64ToBytes(f) is exactly 8 bytes long and its byte j (0 <= j < 8) is
    (bits >> (56 - 8j)) & 0xFF; the first byte is (bits >> 56) & 0xFF and the
    last one bits & 0xFF. -/
theorem float64ToBytes_bigEndian (f : F) :
    (float64ToBytes f).length = 8 ∧
    (∀ j : Fin 8,
      (float64ToBytes f)[j.val]? = some ((Float64bits f >>> (56 - 8 * j.val)) &&& 0xFF)) ∧
    (float64ToBytes f).head? = some ((Float64bits f >>> 56) &&& 0xFF) ∧
    (float64ToBytes f).getLast? = some (Float64bits f &&& 0xFF) := by
  refine ⟨rfl, ?_, ?_, ?_⟩
  · intro j
    fin_cases j <;> simp [float64ToBytes, byte_eq_and]
  · simp [float64ToBytes, byte_eq_and]
  · simp [float64ToBytes, byte_eq_and]

/-- C9: float64ToBytes is an injective function of the bit pattern.  For all
    64-bit patterns b1, b2, equal 8-byte encodings force b1 = b2, and the sum
    of byte[j] * 256^(7-j) over the eight output bytes is the original
    pattern. -/
theorem float64ToBytes_injective (b1 b2 : Nat) (h1 : b1 < 2 ^ 64) (h2 : b2 < 2 ^ 64) :
    (float64ToBytes (Float64.ofBits b1) = float64ToBytes (Float64.ofBits b2) → b1 = b2) ∧
    ∑ j in Finset.range 8, (float64ToBytes (Float64.ofBits b1)).getD j 0 * 256 ^ (7 - j) = b1 := by
  have hb1 : Float64bits (Float64.ofBits b1) = b1 := Nat.mod_eq_of_lt h1
  have hb2 : Float64bits (Float64.ofBits b2) = b2 := Nat.mod_eq_of_lt h2
  constructor
  · intro h
    rw [← hb1, ← hb2, ← float64ToBytes_sum, ← float64ToBytes_sum, h]
  · rw [float64ToBytes_sum, hb1]

/-- Witness of `float64ToBytes_injective` at the patterns of 0.01 and 100.0. -/
theorem float64ToBytes_injective_witness :
    4576918229304087675 < 2 ^ 64 ∧ 4636737291354636288 < 2 ^ 64 ∧
    ((float64ToBytes (Float64.ofBits 4576918229304087675) =
        float64ToBytes (Float64.ofBits 4636737291354636288) →
      4576918229304087675 = 4636737291354636288) ∧
    ∑ j in Finset.range 8,
      (float64ToBytes (Float64.ofBits 4576918229304087675)).getD j 0 * 256 ^ (7 - j) =
        4576918229304087675) :=
  ⟨by decide, by decide,
    float64ToBytes_injective 4576918229304087675 4636737291354636288 (by decide) (by decide)⟩

end ByteOrder

/-! ## Parameter validation (C6) -/

section Validation

variable {G : Type}

set_option maxRecDepth 100000 in
/-- C6, as stated, fails: with N = 1 (odd) and dt = -1.0 (not positive), seed
    0 and the SplitMix64 generator, generateChaosKeys integrates one step and
    returns eight streams of eight bytes each. -/
theorem invalid_params_accepted :
    (1 : Int) % 2 = 1 ∧ Float64.le (-1.0) 0.0 = true ∧
    (generateChaosKeys splitMix64 0 0 1 (-1.0 : Float64)).1.toList =
      [[193, 87, 234, 191, 245, 175, 98, 37], [65, 241, 211, 224, 118, 179, 166, 47],
       [194, 10, 150, 148, 188, 109, 57, 230], [193, 199, 115, 2, 32, 21, 228, 239],
       [66, 231, 139, 70, 130, 136, 87, 120], [66, 202, 174, 52, 181, 126, 69, 43],
       [67, 73, 21, 157, 202, 198, 165, 235], [65, 179, 10, 69, 208, 16, 107, 151],
       [], [], []] := by
  decide

/-- C6, amended: generateChaosKeys validates nothing and has no error result.
    Whenever N = 0, N is odd, dt <= 0, or dt is not finite, the call still
    runs N integration steps from initChaos(seed) and returns the bundle:
    stream k is the encoded trajectory, of length 8 * N for k < 8 and empty
    for k >= 8 (so all eleven streams are empty when N = 0). -/
theorem generateChaosKeys_no_validation (rng : MathRand G Float64) (g : G) (seed : Int)
    (N : Nat) (dt : Float64)
    (_hinvalid : N = 0 ∨ N % 2 = 1 ∨ dt.le 0.0 = true ∨ dt.isFinite = false) (k : Fin 11) :
    (generateChaosKeys rng g seed (N : Int) dt).1.get k =
      encodeTrajectory k dt (initChaos rng g seed).1 N ∧
    ((generateChaosKeys rng g seed (N : Int) dt).1.get k).length =
      (if k.val < 8 then 8 * N else 0) ∧
    (N = 0 → (generateChaosKeys rng g seed (N : Int) dt).1.get k = []) := by
  have hget : (generateChaosKeys rng g seed (N : Int) dt).1.get k =
      encodeTrajectory k dt (initChaos rng g seed).1 N := by
    rw [generateChaosKeys_get, Int.toNat_ofNat]
  refine ⟨hget, ?_, ?_⟩
  · rw [hget, encodeTrajectory_length]
  · intro h0
    rw [hget, h0]
    rfl

/-- Witness of `generateChaosKeys_no_validation` at N = 1, dt = -1.0, k = 0. -/
theorem generateChaosKeys_no_validation_witness :
    (1 = 0 ∨ 1 % 2 = 1 ∨ Float64.le (-1.0) 0.0 = true ∨ Float64.isFinite (-1.0) = false) ∧
    ((generateChaosKeys splitMix64 0 0 ((1 : Nat) : Int) (-1.0 : Float64)).1.get 0 =
      encodeTrajectory 0 (-1.0 : Float64) (initChaos splitMix64 0 0).1 1 ∧
    ((generateChaosKeys splitMix64 0 0 ((1 : Nat) : Int) (-1.0 : Float64)).1.get 0).length =
      (if (0 : Fin 11).val < 8 then 8 * 1 else 0) ∧
    (1 = 0 → (generateChaosKeys splitMix64 0 0 ((1 : Nat) : Int) (-1.0 : Float64)).1.get 0 = [])) :=
  ⟨Or.inr (Or.inl (by decide)),
    generateChaosKeys_no_validation splitMix64 0 0 1 (-1.0 : Float64)
      (Or.inr (Or.inl (by decide))) 0⟩

end Validation

/-! ## Divergence (C7) -/

section Divergence

variable {G : Type}

set_option maxRecDepth 100000 in
/-- C7, as stated, fails: with N = 2 and dt = 100.0 (seed 0, SplitMix64
    generator) the second step leaves the hyperchaotic coordinate r at -Inf,
    and generateChaosKeys returns the complete bundle all the same; the last
    eight bytes of stream 6 are the encoding of -Inf. -/
theorem divergence_not_reported :
    ((stateAfter (100.0 : Float64) (initChaos splitMix64 0 0).1 2).2.R).isFinite = false ∧
    (generateChaosKeys splitMix64 0 0 2 (100.0 : Float64)).1.toList =
      [[68, 59, 216, 45, 177, 24, 153, 197, 94, 141, 14, 222, 139, 23, 70, 74],
       [198, 18, 131, 195, 24, 174, 30, 87, 112, 136, 96, 105, 239, 168, 139, 155],
       [70, 87, 243, 2, 145, 70, 78, 118, 240, 207, 136, 36, 186, 212, 231, 77],
       [68, 138, 255, 165, 138, 53, 211, 246, 98, 154, 222, 83, 200, 214, 187, 211],
       [199, 118, 51, 255, 30, 145, 29, 208, 248, 76, 172, 85, 150, 144, 47, 197],
       [199, 55, 156, 131, 247, 121, 191, 44, 248, 14, 125, 232, 234, 54, 200, 252],
       [200, 135, 101, 118, 71, 236, 14, 250, 255, 240, 0, 0, 0, 0, 0, 0],
       [68, 225, 82, 188, 43, 226, 136, 214, 106, 109, 55, 194, 252, 234, 175, 65],
       [], [], []] := by
  decide

theorem nonfinite_bytes (x : Float64) (hx : x.isFinite = false) :
    (float64ToBytes x).getD 0 0 % 128 = 127 ∧ (float64ToBytes x).getD 1 0 / 16 = 15 := by
  have hlt := x.bits_lt
  have he : (x.bits >>> 52) % 2048 = 2047 := by
    simpa [Float64.isFinite, Float64.expField] using hx
  simp only [float64ToBytes, byte, Float64bits, List.getD_cons_zero, List.getD_cons_succ,
    Nat.shiftRight_eq_div_pow] at he ⊢
  norm_num at hlt he ⊢
  omega

/-- C7, amended: generateChaosKeys has no divergence check.  If the state
    after step i+1 (i < N) has a non-finite coordinate k (NaN, +Inf or -Inf),
    nothing fails: the complete bundle is returned, streams 0..7 have length
    8 * N, and bytes 8i..8i+7 of stream k are float64ToBytes of that
    non-finite coordinate (exponent bits all ones). -/
theorem generateChaosKeys_ignores_divergence (rng : MathRand G Float64) (g : G) (seed : Int)
    (N : Nat) (dt : Float64) (i : Nat) (hi : i < N) (k : Fin 8)
    (hdiv : ((coordinates (stateAfter dt (initChaos rng g seed).1 (i + 1))).get k).isFinite
      = false) :
    (∀ t : Fin 11, t.val < 8 →
      ((generateChaosKeys rng g seed (N : Int) dt).1.get t).length = 8 * N) ∧
    (((generateChaosKeys rng g seed (N : Int) dt).1.get (Fin.castLE (by decide) k)).drop
        (8 * i)).take 8 =
      float64ToBytes ((coordinates (stateAfter dt (initChaos rng g seed).1 (i + 1))).get k) ∧
    ((generateChaosKeys rng g seed (N : Int) dt).1.get (Fin.castLE (by decide) k)).getD
        (8 * i) 0 % 128 = 127 ∧
    ((generateChaosKeys rng g seed (N : Int) dt).1.get (Fin.castLE (by decide) k)).getD
        (8 * i + 1) 0 / 16 = 15 := by
  have hk : (Fin.castLE (by decide : 8 ≤ 11) k).val < 8 := k.isLt
  have hslice : (((generateChaosKeys rng g seed (N : Int) dt).1.get
      (Fin.castLE (by decide) k)).drop (8 * i)).take 8 =
      float64ToBytes ((coordinates (stateAfter dt (initChaos rng g seed).1 (i + 1))).get k) := by
    rw [generateChaosKeys_get, Int.toNat_ofNat, encodeTrajectory_slice _ _ _ _ _ hi,
      streamChunk, dif_pos hk]
    rfl
  have hb := nonfinite_bytes _ hdiv
  rw [← hslice] at hb
  refine ⟨?_, hslice, ?_, ?_⟩
  · intro t ht
    rw [generateChaosKeys_length_low rng g seed N dt t ht, Int.toNat_ofNat]
  · have := hb.1
    rwa [getD_take_of_lt _ _ _ (by decide), List.getD_eq_getElem?_getD, List.getElem?_drop,
      ← List.getD_eq_getElem?_getD, Nat.add_zero] at this
  · have := hb.2
    rwa [getD_take_of_lt _ _ _ (by decide), List.getD_eq_getElem?_getD, List.getElem?_drop,
      ← List.getD_eq_getElem?_getD] at this

set_option maxRecDepth 100000 in
/-- Witness of `generateChaosKeys_ignores_divergence` at N = 2, dt = 100.0,
    i = 1, k = 6 (seed 0, SplitMix64 generator). -/
theorem generateChaosKeys_ignores_divergence_witness :
    1 < 2 ∧
    ((coordinates (stateAfter (100.0 : Float64) (initChaos splitMix64 0 0).1 (1 + 1))).get
        (6 : Fin 8)).isFinite = false ∧
    ((∀ t : Fin 11, t.val < 8 →
      ((generateChaosKeys splitMix64 0 0 ((2 : Nat) : Int) (100.0 : Float64)).1.get t).length
        = 8 * 2) ∧
    (((generateChaosKeys splitMix64 0 0 ((2 : Nat) : Int) (100.0 : Float64)).1.get
        (Fin.castLE (by decide) (6 : Fin 8))).drop (8 * 1)).take 8 =
      float64ToBytes
        ((coordinates (stateAfter (100.0 : Float64) (initChaos splitMix64 0 0).1 (1 + 1))).get
          (6 : Fin 8)) ∧
    ((generateChaosKeys splitMix64 0 0 ((2 : Nat) : Int) (100.0 : Float64)).1.get
        (Fin.castLE (by decide) (6 : Fin 8))).getD (8 * 1) 0 % 128 = 127 ∧
    ((generateChaosKeys splitMix64 0 0 ((2 : Nat) : Int) (100.0 : Float64)).1.get
        (Fin.castLE (by decide) (6 : Fin 8))).getD (8 * 1 + 1) 0 / 16 = 15) :=
  ⟨by decide, by decide,
    generateChaosKeys_ignores_divergence splitMix64 0 0 2 (100.0 : Float64) 1 (by decide) 6
      (by decide)⟩

end Divergence

/-! ## Framing of the seed derivation (C11) -/

section Framing

/-- C11: the KDF has no framing.  For all byte sequences mk1, n1, mk2, n2
    with mk1 ++ n1 = mk2 ++ n2, deriveChaosParams(mk1, n1) =
    deriveChaosParams(mk2, n2). -/
theorem deriveChaosParams_no_framing (mk1 n1 mk2 n2 : List Nat) (h : mk1 ++ n1 = mk2 ++ n2) :
    deriveChaosParams mk1 n1 = deriveChaosParams mk2 n2 := by
  rw [deriveChaosParams_eq_int64, deriveChaosParams_eq_int64, h]

/-- Witness of `deriveChaosParams_no_framing`: ("ab", "c") and ("a", "bc")
    derive the same seed (shifted-boundary collision). -/
theorem deriveChaosParams_no_framing_witness :
    [97, 98] ++ [99] = [97] ++ [98, 99] ∧
    deriveChaosParams [97, 98] [99] = deriveChaosParams [97] [98, 99] :=
  ⟨rfl, deriveChaosParams_no_framing [97, 98] [99] [97] [98, 99] rfl⟩

end Framing

/-! ## Initial conditions (C12) -/

section InitialConditions

variable {F G : Type} [Sub F] [Mul F] [OfScientific F]

/-- The result of `initChaos` in terms of the eight draws, products written
    as in the source. -/
theorem initChaos_eq (rng : MathRand G F) (g : G) (seed : Int) :
    initChaos rng g seed =
      (({ X := draw rng (rng.Seed seed g) 0 * 20.0 - 10.0
          Y := draw rng (rng.Seed seed g) 1 * 20.0 - 10.0
          Z := draw rng (rng.Seed seed g) 2 * 20.0 - 10.0 },
        { M := draw rng (rng.Seed seed g) 3 * 30.0
          N := draw rng (rng.Seed seed g) 4 * 30.0
          P := draw rng (rng.Seed seed g) 5 * 30.0
          R := draw rng (rng.Seed seed g) 6 * 30.0
          Q := draw rng (rng.Seed seed g) 7 * 30.0 }),
        drawState rng (rng.Seed seed g) 8) := rfl

theorem Float64.mul_comm (x y : Float64) : x * y = y * x := by
  show Float64.mul x y = Float64.mul y x
  unfold Float64.mul
  rw [Nat.xor_comm x.sign y.sign, Nat.mul_comm x.mag y.mag, Bool.or_comm x.isNaN y.isNaN,
    Bool.or_comm x.isInf y.isInf,
    Bool.or_comm (x.isFinite && x.mag == 0) (y.isFinite && y.mag == 0)]

/-- C12: for every seed, initChaos(seed) seeds the generator with seed and
    consumes exactly eight uniform draws r1..r8 in the fixed order x, y, z, m,
    n, p, r, q (the generator is left in the state after the eighth draw),
    returning the Lorenz state (20*r1 - 10, 20*r2 - 10, 20*r3 - 10) and the
    hyperchaotic state (30*r4, 30*r5, 30*r6, 30*r7, 30*r8); the source writes
    the products as r*20 and r*30, the same value when multiplication
    commutes, as it does for float64. -/
theorem initChaos_draws (rng : MathRand G F) (hcomm : ∀ x y : F, x * y = y * x) (g : G)
    (seed : Int) :
    initChaos rng g seed =
      (({ X := 20.0 * draw rng (rng.Seed seed g) 0 - 10.0
          Y := 20.0 * draw rng (rng.Seed seed g) 1 - 10.0
          Z := 20.0 * draw rng (rng.Seed seed g) 2 - 10.0 },
        { M := 30.0 * draw rng (rng.Seed seed g) 3
          N := 30.0 * draw rng (rng.Seed seed g) 4
          P := 30.0 * draw rng (rng.Seed seed g) 5
          R := 30.0 * draw rng (rng.Seed seed g) 6
          Q := 30.0 * draw rng (rng.Seed seed g) 7 }),
        drawState rng (rng.Seed seed g) 8) := by
  rw [initChaos_eq]
  simp only [hcomm (20.0 : F), hcomm (30.0 : F)]

/-- Witness of `initChaos_draws`: binary64 with the SplitMix64 generator,
    prior state 0, seed 42. -/
theorem initChaos_draws_witness :
    (∀ x y : Float64, x * y = y * x) ∧
    initChaos splitMix64 0 42 =
      (({ X := 20.0 * draw splitMix64 (splitMix64.Seed 42 0) 0 - 10.0
          Y := 20.0 * draw splitMix64 (splitMix64.Seed 42 0) 1 - 10.0
          Z := 20.0 * draw splitMix64 (splitMix64.Seed 42 0) 2 - 10.0 },
        { M := 30.0 * draw splitMix64 (splitMix64.Seed 42 0) 3
          N := 30.0 * draw splitMix64 (splitMix64.Seed 42 0) 4
          P := 30.0 * draw splitMix64 (splitMix64.Seed 42 0) 5
          R := 30.0 * draw splitMix64 (splitMix64.Seed 42 0) 6
          Q := 30.0 * draw splitMix64 (splitMix64.Seed 42 0) 7 }),
        drawState splitMix64 (splitMix64.Seed 42 0) 8) :=
  ⟨Float64.mul_comm, initChaos_draws splitMix64 Float64.mul_comm 0 42⟩

end InitialConditions

/-! ## Rounding in the binary64 model -/

namespace Float64

theorem ilog2Aux_nil (n acc : Nat) (hn : 0 < n) (hlt : n < 2 ^ 1) :
    ∃ e, ilog2Aux [] n acc = acc + e ∧ 2 ^ e ≤ n ∧ n < 2 ^ (e + 1) :=
  ⟨0, rfl, by simpa using hn, by simpa using hlt⟩

theorem ilog2Aux_cons (k : Nat) (ks : List Nat)
    (ih : ∀ n acc, 0 < n → n < 2 ^ k →
      ∃ e, ilog2Aux ks n acc = acc + e ∧ 2 ^ e ≤ n ∧ n < 2 ^ (e + 1))
    (n acc : Nat) (hn : 0 < n) (hlt : n < 2 ^ (2 * k)) :
    ∃ e, ilog2Aux (k :: ks) n acc = acc + e ∧ 2 ^ e ≤ n ∧ n < 2 ^ (e + 1) := by
  have hpos : 0 < 2 ^ k := Nat.pow_pos (by decide)
  rw [ilog2Aux, Nat.shiftRight_eq_div_pow]
  by_cases h0 : n / 2 ^ k = 0
  · rw [if_pos h0]
    exact ih n acc hn ((Nat.div_eq_zero_iff hpos).mp h0)
  · rw [if_neg h0]
    have hq : n / 2 ^ k < 2 ^ k := by
      rw [Nat.div_lt_iff_lt_mul hpos, ← Nat.pow_add, ← Nat.two_mul]
      exact hlt
    obtain ⟨e, he, hlo, hhi⟩ := ih (n / 2 ^ k) (acc + k) (Nat.pos_of_ne_zero h0) hq
    refine ⟨k + e, by rw [he, Nat.add_assoc], ?_, ?_⟩
    · calc 2 ^ (k + e) = 2 ^ e * 2 ^ k := by rw [Nat.pow_add, Nat.mul_comm]
        _ ≤ n / 2 ^ k * 2 ^ k := Nat.mul_le_mul_right _ hlo
        _ ≤ n := Nat.div_mul_le_self n (2 ^ k)
    · have := (Nat.div_lt_iff_lt_mul hpos).mp hhi
      calc n < 2 ^ (e + 1) * 2 ^ k := this
        _ = 2 ^ (k + e + 1) := by rw [← Nat.pow_add]; congr 1; omega

/-- The integer logarithm brackets its argument. -/
theorem ilog2_spec (n : Nat) (hn : 0 < n) (hlt : n < 2 ^ 131072) :
    2 ^ ilog2 n ≤ n ∧ n < 2 ^ (ilog2 n + 1) := by
  have h := ilog2Aux_cons 65536 _ (ilog2Aux_cons 32768 _ (ilog2Aux_cons 16384 _
    (ilog2Aux_cons 8192 _ (ilog2Aux_cons 4096 _ (ilog2Aux_cons 2048 _ (ilog2Aux_cons 1024 _
    (ilog2Aux_cons 512 _ (ilog2Aux_cons 256 _ (ilog2Aux_cons 128 _ (ilog2Aux_cons 64 _
    (ilog2Aux_cons 32 _ (ilog2Aux_cons 16 _ (ilog2Aux_cons 8 _ (ilog2Aux_cons 4 _
    (ilog2Aux_cons 2 _ (ilog2Aux_cons 1 [] ilog2Aux_nil)))))))))))))))) n 0 hn hlt
  obtain ⟨e, he, hlo, hhi⟩ := h
  have : ilog2 n = e := by rw [ilog2, he, Nat.zero_add]
  rw [this]
  exact ⟨hlo, hhi⟩

theorem round_eq (s n d : Nat) (hn : n ≠ 0) :
    round s n d =
      if biasedExp n d ≥ 2047 then inf s
      else ofBits (s * 2 ^ 63 + (biasedExp n d - 1) * 2 ^ 52 +
        rne (n <<< 1075) (d <<< biasedExp n d)) := by
  unfold round
  rw [if_neg hn]
  rfl

theorem rne_ge (num den : Nat) : num / den ≤ rne num den := by
  unfold rne
  split <;> omega

theorem rne_le_succ (num den : Nat) : rne num den ≤ num / den + 1 := by
  unfold rne
  split <;> omega

/-- Below the midpoint above `m`, the rounded quotient is at most `m`. -/
theorem rne_le_of_lt (num den m : Nat) (h : 2 * num < (2 * m + 1) * den) :
    rne num den ≤ m := by
  have hdm := Nat.div_add_mod num den
  have hden : 0 < den := by
    rcases Nat.eq_zero_or_pos den with h0 | h0
    · rw [h0] at h; simp at h
    · exact h0
  have hr := Nat.mod_lt num hden
  rcases Nat.lt_trichotomy (num / den) m with hlt | heq | hgt
  · have := rne_le_succ num den
    omega
  · unfold rne
    have h2 : 2 * (num % den) < den := by
      have e1 : (2 * m + 1) * den = 2 * (den * m) + den := by ring
      rw [heq] at hdm
      omega
    rw [if_neg (by omega)]
    omega
  · exfalso
    have h1 : den * (m + 1) ≤ den * (num / den) := Nat.mul_le_mul_left _ hgt
    have e1 : (2 * m + 1) * den = 2 * (den * m) + den := by ring
    have e2 : den * (m + 1) = den * m + den := by ring
    omega

theorem ofBits_fields (s E : Nat) (hs : s ≤ 1) (hE : E < 2 ^ 63) :
    (ofBits (s * 2 ^ 63 + E)).sign = s ∧ (ofBits (s * 2 ^ 63 + E)).expField = E / 2 ^ 52 ∧
      (ofBits (s * 2 ^ 63 + E)).fracField = E % 2 ^ 52 := by
  simp only [sign, expField, fracField, ofBits, Nat.shiftRight_eq_div_pow]
  norm_num at hE ⊢
  omega

/-- The value encoded from a biased exponent and a rounded mantissa. -/
theorem mag_encode (s be mant : Nat) (hs : s ≤ 1) (hbe : 1 ≤ be) (hbe' : be ≤ 2046)
    (hm : mant ≤ 2 ^ 53) (hlow : be = 1 ∨ 2 ^ 52 ≤ mant) (htop : be ≤ 2045 ∨ mant < 2 ^ 53) :
    (ofBits (s * 2 ^ 63 + (be - 1) * 2 ^ 52 + mant)).sign = s ∧
    (ofBits (s * 2 ^ 63 + (be - 1) * 2 ^ 52 + mant)).expField ≠ 2047 ∧
    (ofBits (s * 2 ^ 63 + (be - 1) * 2 ^ 52 + mant)).mag = mant * 2 ^ (be - 1) := by
  have hE : (be - 1) * 2 ^ 52 + mant < 2 ^ 63 := by
    norm_num at hm ⊢
    omega
  rw [Nat.add_assoc]
  obtain ⟨h1, h2, h3⟩ := ofBits_fields s ((be - 1) * 2 ^ 52 + mant) hs hE
  refine ⟨h1, ?_, ?_⟩
  · rw [h2]
    norm_num at hm htop ⊢
    omega
  · unfold mag
    rw [h2, h3]
    by_cases hc1 : mant < 2 ^ 52
    · have hbe1 : be = 1 := by
        rcases hlow with h | h
        · exact h
        · omega
      subst hbe1
      have e0 : ((1 - 1) * 2 ^ 52 + mant) / 2 ^ 52 = 0 := by
        norm_num at hc1 ⊢
        omega
      have e1 : ((1 - 1) * 2 ^ 52 + mant) % 2 ^ 52 = mant := by
        norm_num at hc1 ⊢
        omega
      rw [e0, e1, if_pos rfl]
      simp
    · by_cases hc2 : mant < 2 ^ 53
      · have e0 : ((be - 1) * 2 ^ 52 + mant) / 2 ^ 52 = be := by
          norm_num at hc1 hc2 ⊢
          omega
        have e1 : ((be - 1) * 2 ^ 52 + mant) % 2 ^ 52 = mant - 2 ^ 52 := by
          norm_num at hc1 hc2 ⊢
          omega
        rw [e0, e1, if_neg (by omega), Nat.shiftLeft_eq,
          Nat.add_sub_cancel' (Nat.le_of_not_lt hc1)]
      · have hm53 : mant = 2 ^ 53 := by omega
        have e0 : ((be - 1) * 2 ^ 52 + mant) / 2 ^ 52 = be + 1 := by
          norm_num at hm53 ⊢
          omega
        have e1 : ((be - 1) * 2 ^ 52 + mant) % 2 ^ 52 = 0 := by
          norm_num at hm53 ⊢
          omega
        rw [e0, e1, if_neg (by omega), Nat.shiftLeft_eq, hm53, Nat.add_sub_cancel, Nat.add_zero]
        have : be = (be - 1) + 1 := by omega
        conv_lhs => rw [this, Nat.pow_succ]
        ring

/-- Rounding n / 2^K with sign `s`: when n / 2^K lies below the midpoint just
    above the value `mant0 * 2^(be0 - 1075)` of the grid, the result is
    finite, has sign `s`, and its magnitude is at most that value. -/
theorem round_pow2_bound (s n K be0 mant0 : Nat) (hs : s ≤ 1) (hn : 0 < n)
    (hnlt : n < 2 ^ 131072) (hld : ilog2 (1 <<< K) = K) (hbe0 : 1 ≤ be0) (hbe0' : be0 ≤ 2046)
    (hm0 : mant0 < 2 ^ 53) (hm0' : be0 = 1 ∨ 2 ^ 52 ≤ mant0)
    (hq : 2 * (n * 2 ^ 1075) < (2 * mant0 + 1) * 2 ^ (K + be0)) :
    (round s n (1 <<< K)).sign = s ∧ (round s n (1 <<< K)).expField ≠ 2047 ∧
      (round s n (1 <<< K)).mag ≤ mant0 * 2 ^ (be0 - 1) := by
  obtain ⟨hlo, hhi⟩ := ilog2_spec n hn hnlt
  have hKpos : 0 < 2 ^ K := Nat.pow_pos (by decide)
  -- the denominator is a power of two, so the exponent needs no adjustment
  have hadj : ¬ (n <<< K < (1 <<< K) <<< ilog2 n) := by
    rw [Nat.shiftLeft_eq, Nat.shiftLeft_eq, Nat.shiftLeft_eq, Nat.one_mul, Nat.mul_comm (2 ^ K)]
    exact Nat.not_lt.mpr (Nat.mul_le_mul_right _ hlo)
  have hbe : biasedExp n (1 <<< K) = max (ilog2 n + 1023 - K) 1 := by
    unfold biasedExp
    simp only [hld, if_neg hadj, Nat.add_zero]
  rw [round_eq s n _ (by omega), hbe]
  generalize hb : max (ilog2 n + 1023 - K) 1 = be
  have hbe1 : 1 ≤ be := by omega
  have hbeln : ilog2 n + 1023 ≤ K + be := by omega
  have hbecase : be = 1 ∨ K + be = ilog2 n + 1023 := by omega
  -- the exponent does not exceed the target exponent
  have hbele : be ≤ be0 := by
    by_contra hcon
    have h1 : K + be0 ≤ ilog2 n + 1022 := by omega
    have h2 : 2 ^ (K + be0) ≤ 2 ^ (ilog2 n + 1022) := Nat.pow_le_pow_right (by decide) h1
    have h3 : 2 ^ (ilog2 n + 1022) ≤ n * 2 ^ 1022 := by
      rw [Nat.pow_add]
      exact Nat.mul_le_mul_right _ hlo
    have h4 : n * 2 ^ 1075 = n * 2 ^ 1022 * 2 ^ 53 := by
      rw [Nat.mul_assoc, ← Nat.pow_add]
    have h5 : (2 * mant0 + 1) * 2 ^ (K + be0) ≤ (2 ^ 54 - 1) * 2 ^ (K + be0) :=
      Nat.mul_le_mul_right _ (by omega)
    have h6 : 2 ^ (K + be0) * 2 ^ 54 ≤ n * 2 ^ 1022 * 2 ^ 54 :=
      Nat.mul_le_mul_right _ (Nat.le_trans h2 h3)
    have h7 : (2 ^ 54 - 1) * 2 ^ (K + be0) < 2 ^ (K + be0) * 2 ^ 54 := by
      have hp : 0 < 2 ^ (K + be0) := Nat.pow_pos (by decide)
      generalize 2 ^ (K + be0) = P at hp ⊢
      norm_num
      omega
    have h8 : n * 2 ^ 1022 * 2 ^ 54 = 2 * (n * 2 ^ 1075) := by
      rw [h4]
      generalize n * 2 ^ 1022 = Q
      norm_num
      omega
    omega
  rw [if_neg (by omega)]
  have hden : (1 <<< K) <<< be = 2 ^ (K + be) := by
    rw [Nat.shiftLeft_eq, Nat.shiftLeft_eq, Nat.one_mul, Nat.pow_add]
  have hnum : n <<< 1075 = n * 2 ^ 1075 := Nat.shiftLeft_eq _ _
  rw [hden, hnum]
  have hdpos : 0 < 2 ^ (K + be) := Nat.pow_pos (by decide)
  -- the rounded mantissa fits 53 bits, or is 2^53
  have hquo : n * 2 ^ 1075 / 2 ^ (K + be) < 2 ^ 53 := by
    rw [Nat.div_lt_iff_lt_mul hdpos]
    calc n * 2 ^ 1075 < 2 ^ (ilog2 n + 1) * 2 ^ 1075 := Nat.mul_lt_mul_of_pos_right hhi (by positivity)
      _ = 2 ^ 53 * 2 ^ (ilog2 n + 1023) := by
        rw [← Nat.pow_add, ← Nat.pow_add,
          show ilog2 n + 1 + 1075 = 53 + (ilog2 n + 1023) by omega]
      _ ≤ 2 ^ 53 * 2 ^ (K + be) :=
        Nat.mul_le_mul_left _ (Nat.pow_le_pow_right (by decide) hbeln)
  have hmant : rne (n * 2 ^ 1075) (2 ^ (K + be)) ≤ 2 ^ 53 := by
    have := rne_le_succ (n * 2 ^ 1075) (2 ^ (K + be))
    omega
  -- above the subnormal range the leading bit is set
  have hlow : be = 1 ∨ 2 ^ 52 ≤ rne (n * 2 ^ 1075) (2 ^ (K + be)) := by
    rcases hbecase with h | h
    · exact Or.inl h
    · right
      refine Nat.le_trans ?_ (rne_ge _ _)
      rw [Nat.le_div_iff_mul_le hdpos, h]
      calc 2 ^ 52 * 2 ^ (ilog2 n + 1023) = 2 ^ ilog2 n * 2 ^ 1075 := by
            rw [← Nat.pow_add, ← Nat.pow_add,
              show 52 + (ilog2 n + 1023) = ilog2 n + 1075 by omega]
        _ ≤ n * 2 ^ 1075 := Nat.mul_le_mul_right _ hlo
  -- at the target exponent the mantissa stays below the target mantissa
  have hsame : be = be0 → rne (n * 2 ^ 1075) (2 ^ (K + be)) ≤ mant0 := by
    intro h
    rw [h]
    exact rne_le_of_lt _ _ _ hq
  have htop : be ≤ 2045 ∨ rne (n * 2 ^ 1075) (2 ^ (K + be)) < 2 ^ 53 := by
    by_cases h : be = be0
    · right
      have := hsame h
      omega
    · left
      omega
  obtain ⟨r1, r2, r3⟩ := mag_encode s be _ hs hbe1 (by omega) hmant hlow htop
  refine ⟨r1, r2, ?_⟩
  rw [r3]
  by_cases h : be = be0
  · have hle := hsame h
    rw [h] at hle ⊢
    exact Nat.mul_le_mul_right _ hle
  · have hlt : be < be0 := by omega
    have hm52 : 2 ^ 52 ≤ mant0 := by
      rcases hm0' with h' | h'
      · omega
      · exact h'
    calc rne (n * 2 ^ 1075) (2 ^ (K + be)) * 2 ^ (be - 1) ≤ 2 ^ 53 * 2 ^ (be - 1) :=
          Nat.mul_le_mul_right _ hmant
      _ = 2 ^ 52 * 2 ^ be := by
          rw [← Nat.pow_add, ← Nat.pow_add, show 53 + (be - 1) = 52 + be by omega]
      _ ≤ 2 ^ 52 * 2 ^ (be0 - 1) :=
          Nat.mul_le_mul_left _ (Nat.pow_le_pow_right (by decide) (by omega))
      _ ≤ mant0 * 2 ^ (be0 - 1) := Nat.mul_le_mul_right _ hm52

theorem le_iff (x y : Float64) :
    le x y = true ↔ x.isNaN = false ∧ y.isNaN = false ∧ orderKey x ≤ orderKey y := by
  have h : le x y = (!x.isNaN && !y.isNaN && decide (orderKey x ≤ orderKey y)) := rfl
  rw [h]
  simp [Bool.and_eq_true, and_assoc]

theorem lt_iff (x y : Float64) :
    lt x y = true ↔ x.isNaN = false ∧ y.isNaN = false ∧ orderKey x < orderKey y := by
  unfold lt
  simp [Bool.and_eq_true, and_assoc]

theorem sign_le_one (x : Float64) : x.sign ≤ 1 := by
  have h := x.bits_lt
  unfold sign
  rw [Nat.shiftRight_eq_div_pow]
  norm_num at h ⊢
  omega

theorem isNaN_of_finite (x : Float64) (h : x.expField ≠ 2047) : x.isNaN = false := by
  simp [isNaN, h]

theorem isInf_of_finite (x : Float64) (h : x.expField ≠ 2047) : x.isInf = false := by
  simp [isInf, h]

theorem orderKey_of_finite (x : Float64) (h : x.expField ≠ 2047) :
    orderKey x = if x.sign = 1 then -(x.mag : Int) else x.mag := by
  unfold orderKey scaled
  rw [isInf_of_finite x h]
  simp

theorem round_zero (s d : Nat) : round s 0 d = zero s := rfl

theorem zero_fields (s : Nat) (hs : s ≤ 1) :
    (zero s).sign = s ∧ (zero s).expField ≠ 2047 ∧ (zero s).mag = 0 := by
  obtain ⟨h1, h2, h3⟩ := ofBits_fields s 0 hs (by norm_num)
  rw [Nat.add_zero] at h1 h2 h3
  refine ⟨h1, ?_, ?_⟩
  · unfold zero
    rw [h2]
    norm_num
  · unfold zero mag
    rw [h2, h3]
    norm_num

/-- A value in [0, 1): finite, a zero of either sign or positive, and at most
    1 - 2^-53. -/
theorem unit_interval_facts (r : Float64) (h0 : le 0.0 r = true) (h1 : lt r 1.0 = true) :
    r.expField ≠ 2047 ∧ (r.sign = 1 → r.mag = 0) ∧ r.mag ≤ (2 ^ 53 - 1) * 2 ^ 1021 := by
  obtain ⟨-, hnan, hge⟩ := (le_iff _ _).mp h0
  obtain ⟨-, -, hlt⟩ := (lt_iff _ _).mp h1
  have k0 : orderKey (0.0 : Float64) = 0 := by decide
  have k1 : orderKey (1.0 : Float64) = ((1 <<< 1074 : Nat) : Int) := by decide
  rw [k0] at hge
  rw [k1, Nat.shiftLeft_eq, Nat.one_mul] at hlt
  have hs := sign_le_one r
  have hfin : r.expField ≠ 2047 := by
    intro he
    have hfrac : r.fracField = 0 := by
      by_contra hf
      have : r.isNaN = true := by simp [isNaN, he, hf]
      rw [this] at hnan
      exact Bool.noConfusion hnan
    have hinf : r.isInf = true := by simp [isInf, he, hfrac]
    unfold orderKey at hge hlt
    rw [hinf] at hge hlt
    simp only [if_true, Nat.shiftLeft_eq, Nat.one_mul] at hge hlt
    by_cases h : r.sign = 1
    · rw [if_pos h] at hge
      have : (0 : Int) < ((2 ^ 2100 : Nat) : Int) := by positivity
      omega
    · rw [if_neg h] at hlt
      have : (2 ^ 1074 : Nat) ≤ 2 ^ 2100 := Nat.pow_le_pow_right (by decide) (by decide)
      omega
  rw [orderKey_of_finite r hfin] at hge hlt
  have hmaglt : r.mag < 2 ^ 1074 := by
    by_cases h : r.sign = 1
    · rw [if_pos h] at hge
      have : (0 : Int) < ((2 ^ 1074 : Nat) : Int) := by positivity
      omega
    · rw [if_neg h] at hlt
      exact_mod_cast hlt
  refine ⟨hfin, ?_, ?_⟩
  · intro h
    rw [if_pos h] at hge
    omega
  · have hfr : r.fracField < 2 ^ 52 := Nat.mod_lt _ (by positivity)
    unfold mag at hmaglt ⊢
    by_cases he : r.expField = 0
    · rw [if_pos he]
      have hb : 2 ^ 52 ≤ (2 ^ 53 - 1) * 2 ^ 1021 := by norm_num
      exact Nat.le_trans (Nat.le_of_lt hfr) hb
    · rw [if_neg he, Nat.shiftLeft_eq] at hmaglt ⊢
      have hexp : r.expField - 1 ≤ 1021 := by
        by_contra hcon
        have h1 : 2 ^ 1022 ≤ 2 ^ (r.expField - 1) := Nat.pow_le_pow_right (by decide) (by omega)
        have h2 : 2 ^ 52 * 2 ^ 1022 ≤ (2 ^ 52 + r.fracField) * 2 ^ (r.expField - 1) :=
          Nat.mul_le_mul (by omega) h1
        have h3 : 2 ^ 52 * 2 ^ 1022 = 2 ^ 1074 := by rw [← Nat.pow_add]
        rw [h3] at h2
        exact Nat.not_le.mpr hmaglt h2
      have hpow : 2 ^ (r.expField - 1) ≤ 2 ^ 1021 := Nat.pow_le_pow_right (by decide) hexp
      generalize 2 ^ (r.expField - 1) = P at hpow ⊢
      generalize 2 ^ 1021 = Q at hpow ⊢
      exact Nat.mul_le_mul (by omega) hpow

/-- Product of a value r in [0, 1) and a finite positive constant c, bounded
    by a value of the grid that `r * c` stays below the midpoint after. -/
theorem mul_unit_bound (r c : Float64) (be0 mant0 : Nat)
    (hr : r.expField ≠ 2047) (hrs : r.sign = 1 → r.mag = 0)
    (hrm : r.mag ≤ (2 ^ 53 - 1) * 2 ^ 1021)
    (hc : c.expField ≠ 2047) (hcs : c.sign = 0) (hcm : c.mag < 2 ^ 1100)
    (hbe0 : 1 ≤ be0) (hbe0' : be0 ≤ 2046) (hm0 : mant0 < 2 ^ 53) (hm0' : 2 ^ 52 ≤ mant0)
    (hq : ∀ m, m ≤ (2 ^ 53 - 1) * 2 ^ 1021 →
      2 * (m * c.mag * 2 ^ 1075) < (2 * mant0 + 1) * 2 ^ (2148 + be0)) :
    (r * c).expField ≠ 2047 ∧ (r * c).sign ≤ 1 ∧ ((r * c).sign = 1 → (r * c).mag = 0) ∧
      (r * c).mag ≤ mant0 * 2 ^ (be0 - 1) := by
  have hmul : r * c = round r.sign (r.mag * c.mag) (1 <<< 2148) := by
    show mul r c = _
    unfold mul
    simp only [isNaN_of_finite r hr, isNaN_of_finite c hc, isInf_of_finite r hr,
      isInf_of_finite c hc, hcs, Nat.xor_zero, Bool.or_self, Bool.false_eq_true, if_false]
  rw [hmul]
  have hsr := sign_le_one r
  by_cases hn : r.mag * c.mag = 0
  · rw [hn, round_zero]
    obtain ⟨z1, z2, z3⟩ := zero_fields r.sign hsr
    exact ⟨z2, by omega, fun _ => z3, by rw [z3]; exact Nat.zero_le _⟩
  · have hrmag : r.mag ≠ 0 := fun h => hn (by rw [h, Nat.zero_mul])
    have hs0 : r.sign = 0 := by
      rcases Nat.eq_zero_or_pos r.sign with h | h
      · exact h
      · exact absurd (hrs (by omega)) hrmag
    rw [hs0]
    have hsize : r.mag * c.mag < 2 ^ 131072 := by
      have h1 : r.mag < 2 ^ 1100 := by
        have : (2 ^ 53 - 1) * 2 ^ 1021 < 2 ^ 1100 := by norm_num
        omega
      calc r.mag * c.mag < 2 ^ 1100 * 2 ^ 1100 := Nat.mul_lt_mul'' h1 hcm
        _ = 2 ^ 2200 := by rw [← Nat.pow_add]
        _ ≤ 2 ^ 131072 := Nat.pow_le_pow_right (by decide) (by decide)
    obtain ⟨b1, b2, b3⟩ := round_pow2_bound 0 (r.mag * c.mag) 2148 be0 mant0 (by decide)
      (Nat.pos_of_ne_zero hn) hsize (by decide) hbe0 hbe0' hm0 (Or.inr hm0') (hq r.mag hrm)
    refine ⟨b2, by omega, ?_, b3⟩
    intro h
    omega

theorem size_of_le (n B : Nat) (hB : B < 2 ^ 2200) (h : n ≤ B) : n < 2 ^ 131072 :=
  Nat.lt_of_le_of_lt h
    (Nat.lt_of_lt_of_le hB (Nat.pow_le_pow_right (by decide) (by decide)))

/-- Subtracting 10 from a value of [0, 20 - 2^-48] lands in [-10, 10). -/
theorem sub_ten_bound (y : Float64) (hy : y.expField ≠ 2047) (hys : y.sign = 1 → y.mag = 0)
    (hym : y.mag ≤ (5 * 2 ^ 50 - 1) * 2 ^ 1026) :
    le (-10.0) (y - 10.0) = true ∧ lt (y - 10.0) 10.0 = true := by
  have c1 : (neg 10.0).isNaN = false := by decide
  have c2 : (neg 10.0).isInf = false := by decide
  have c3 : (neg 10.0).scaled = -((10 <<< 1074 : Nat) : Int) := by decide
  have k1 : orderKey (-10.0 : Float64) = -((10 <<< 1074 : Nat) : Int) := by decide
  have k2 : orderKey (10.0 : Float64) = ((10 <<< 1074 : Nat) : Int) := by decide
  have n1 : (-10.0 : Float64).isNaN = false := by decide
  have n2 : (10.0 : Float64).isNaN = false := by decide
  have hscaled : y.scaled = (y.mag : Int) := by
    unfold scaled
    by_cases h : y.sign = 1
    · rw [if_pos h, hys h]
      rfl
    · rw [if_neg h]
  -- name the constant 10 * 2^1074 and the difference
  obtain ⟨T, hT⟩ : ∃ T : Nat, T = 10 <<< 1074 := ⟨_, rfl⟩
  have hTval : T = 10 * 2 ^ 1074 := by rw [hT, Nat.shiftLeft_eq]
  rw [← hT] at c3 k1 k2
  obtain ⟨t, ht⟩ : ∃ t : Int, t = (y.mag : Int) - (T : Int) := ⟨_, rfl⟩
  have hsub : y - (10.0 : Float64) =
      if t = 0 then zero (if y.sign = 1 ∧ (neg 10.0).sign = 1 then 1 else 0)
      else round (if t < 0 then 1 else 0) t.natAbs (1 <<< 1074) := by
    show add y (neg 10.0) = _
    unfold add
    simp only [isNaN_of_finite y hy, isInf_of_finite y hy, c1, c2, c3, hscaled,
      Bool.or_self, Bool.false_eq_true, if_false, ht]
    rfl
  rw [le_iff, lt_iff, hsub, k1, k2]
  norm_num at hym hTval
  by_cases h0 : t = 0
  · -- the difference is exactly zero
    rw [if_pos h0]
    have hz : (if y.sign = 1 ∧ (neg 10.0).sign = 1 then 1 else 0) ≤ 1 := by split <;> omega
    obtain ⟨z1, z2, z3⟩ := zero_fields _ hz
    have hk : orderKey (zero (if y.sign = 1 ∧ (neg 10.0).sign = 1 then 1 else 0)) = 0 := by
      rw [orderKey_of_finite _ z2, z3]
      split <;> rfl
    rw [hk]
    exact ⟨⟨n1, isNaN_of_finite _ z2, by omega⟩, ⟨isNaN_of_finite _ z2, n2, by omega⟩⟩
  · rw [if_neg h0]
    by_cases hneg : t < 0
    · -- below 10: the result is negative, of magnitude at most 10
      rw [if_pos hneg]
      have hq : 2 * (t.natAbs * 2 ^ 1075) < (2 * (5 * 2 ^ 50) + 1) * 2 ^ (1074 + 1026) := by
        norm_num
        omega
      obtain ⟨b1, b2, b3⟩ := round_pow2_bound 1 t.natAbs 1074 1026 (5 * 2 ^ 50) (by decide)
        (by omega) (size_of_le _ T (by rw [hTval]; norm_num) (by omega)) (by decide)
        (by decide) (by decide) (by norm_num) (Or.inr (by norm_num)) hq
      rw [orderKey_of_finite _ b2, if_pos b1]
      norm_num at b3
      exact ⟨⟨n1, isNaN_of_finite _ b2, by omega⟩, ⟨isNaN_of_finite _ b2, n2, by omega⟩⟩
    · -- above 10: the result is positive, at most 10 - 2^-48
      rw [if_neg hneg]
      have hq : 2 * (t.natAbs * 2 ^ 1075) < (2 * (5 * 2 ^ 50 - 2) + 1) * 2 ^ (1074 + 1026) := by
        norm_num
        omega
      obtain ⟨b1, b2, b3⟩ := round_pow2_bound 0 t.natAbs 1074 1026 (5 * 2 ^ 50 - 2) (by decide)
        (by omega) (size_of_le _ T (by rw [hTval]; norm_num) (by omega)) (by decide)
        (by decide) (by decide) (by norm_num) (Or.inr (by norm_num)) hq
      rw [orderKey_of_finite _ b2, if_neg (by omega)]
      norm_num at b3
      exact ⟨⟨n1, isNaN_of_finite _ b2, by omega⟩, ⟨isNaN_of_finite _ b2, n2, by omega⟩⟩

/-- A draw r in [0, 1) is mapped by `r * 20 - 10` into [-10, 10). -/
theorem lorenz_range (r : Float64) (h0 : le 0.0 r = true) (h1 : lt r 1.0 = true) :
    le (-10.0) (r * 20.0 - 10.0) = true ∧ lt (r * 20.0 - 10.0) 10.0 = true := by
  obtain ⟨hr, hrs, hrm⟩ := unit_interval_facts r h0 h1
  have c1 : (20.0 : Float64).expField ≠ 2047 := by decide
  have c2 : (20.0 : Float64).sign = 0 := by decide
  have c3 : (20.0 : Float64).mag = 20 <<< 1074 := by decide
  have c4 : (20.0 : Float64).mag < 2 ^ 1100 := by
    rw [c3, Nat.shiftLeft_eq]
    norm_num
  obtain ⟨m1, m2, m3, m4⟩ := mul_unit_bound r 20.0 1027 (5 * 2 ^ 50 - 1) hr hrs hrm c1 c2 c4
    (by decide) (by decide) (by norm_num) (by norm_num) (by
      intro m hm
      rw [c3, Nat.shiftLeft_eq]
      norm_num at hm ⊢
      omega)
  rw [show 1027 - 1 = 1026 from rfl] at m4
  exact sub_ten_bound (r * 20.0) m1 m3 m4

/-- A draw r in [0, 1) is mapped by `r * 30` into [0, 30). -/
theorem hyper_range (r : Float64) (h0 : le 0.0 r = true) (h1 : lt r 1.0 = true) :
    le 0.0 (r * 30.0) = true ∧ lt (r * 30.0) 30.0 = true := by
  obtain ⟨hr, hrs, hrm⟩ := unit_interval_facts r h0 h1
  have c1 : (30.0 : Float64).expField ≠ 2047 := by decide
  have c2 : (30.0 : Float64).sign = 0 := by decide
  have c3 : (30.0 : Float64).mag = 30 <<< 1074 := by decide
  have c4 : (30.0 : Float64).mag < 2 ^ 1100 := by
    rw [c3, Nat.shiftLeft_eq]
    norm_num
  have k0 : orderKey (0.0 : Float64) = 0 := by decide
  have k30 : orderKey (30.0 : Float64) = ((30 <<< 1074 : Nat) : Int) := by decide
  have n0 : (0.0 : Float64).isNaN = false := by decide
  have n30 : (30.0 : Float64).isNaN = false := by decide
  obtain ⟨m1, m2, m3, m4⟩ := mul_unit_bound r 30.0 1027 (15 * 2 ^ 49 - 1) hr hrs hrm c1 c2 c4
    (by decide) (by decide) (by norm_num) (by norm_num) (by
      intro m hm
      rw [c3, Nat.shiftLeft_eq]
      norm_num at hm ⊢
      omega)
  rw [le_iff, lt_iff, k0, k30, orderKey_of_finite _ m1, Nat.shiftLeft_eq]
  norm_num at m4 ⊢
  refine ⟨⟨n0, isNaN_of_finite _ m1, ?_⟩, ⟨isNaN_of_finite _ m1, n30, ?_⟩⟩
  · split
    · rename_i h
      rw [m3 h]
      simp
    · exact Int.natCast_nonneg _
  · split
    · rename_i h
      rw [m3 h]
      norm_num
    · exact_mod_cast Nat.lt_of_le_of_lt m4 (by norm_num)

end Float64

/-! ## Ranges of the initial conditions (C13) -/

section InitialRanges

variable {G : Type}

/-- C13: the initial conditions lie within the prescribed ranges.  For every
    seed, provided each of the eight uniform draws lies in [0, 1), the Lorenz
    state returned by initChaos has x, y, z in [-10, 10) and the hyperchaotic
    state has m, n, p, r, q in [0, 30), in float64 arithmetic. -/
theorem initChaos_ranges (rng : MathRand G Float64) (g : G) (seed : Int)
    (hdraw : ∀ i, i < 8 →
      Float64.le 0.0 (draw rng (rng.Seed seed g) i) = true ∧
        Float64.lt (draw rng (rng.Seed seed g) i) 1.0 = true) :
    (Float64.le (-10.0) (initChaos rng g seed).1.1.X = true ∧
      Float64.lt (initChaos rng g seed).1.1.X 10.0 = true) ∧
    (Float64.le (-10.0) (initChaos rng g seed).1.1.Y = true ∧
      Float64.lt (initChaos rng g seed).1.1.Y 10.0 = true) ∧
    (Float64.le (-10.0) (initChaos rng g seed).1.1.Z = true ∧
      Float64.lt (initChaos rng g seed).1.1.Z 10.0 = true) ∧
    (Float64.le 0.0 (initChaos rng g seed).1.2.M = true ∧
      Float64.lt (initChaos rng g seed).1.2.M 30.0 = true) ∧
    (Float64.le 0.0 (initChaos rng g seed).1.2.N = true ∧
      Float64.lt (initChaos rng g seed).1.2.N 30.0 = true) ∧
    (Float64.le 0.0 (initChaos rng g seed).1.2.P = true ∧
      Float64.lt (initChaos rng g seed).1.2.P 30.0 = true) ∧
    (Float64.le 0.0 (initChaos rng g seed).1.2.R = true ∧
      Float64.lt (initChaos rng g seed).1.2.R 30.0 = true) ∧
    (Float64.le 0.0 (initChaos rng g seed).1.2.Q = true ∧
      Float64.lt (initChaos rng g seed).1.2.Q 30.0 = true) := by
  have hL : ∀ i, i < 8 →
      Float64.le (-10.0) (draw rng (rng.Seed seed g) i * 20.0 - 10.0) = true ∧
        Float64.lt (draw rng (rng.Seed seed g) i * 20.0 - 10.0) 10.0 = true :=
    fun i hi => Float64.lorenz_range _ (hdraw i hi).1 (hdraw i hi).2
  have hH : ∀ i, i < 8 →
      Float64.le 0.0 (draw rng (rng.Seed seed g) i * 30.0) = true ∧
        Float64.lt (draw rng (rng.Seed seed g) i * 30.0) 30.0 = true :=
    fun i hi => Float64.hyper_range _ (hdraw i hi).1 (hdraw i hi).2
  exact ⟨hL 0 (by decide), hL 1 (by decide), hL 2 (by decide), hH 3 (by decide),
    hH 4 (by decide), hH 5 (by decide), hH 6 (by decide), hH 7 (by decide)⟩

set_option maxRecDepth 100000 in
/-- Witness of `initChaos_ranges`: the SplitMix64 generator, prior state 0,
    seed 42. -/
theorem initChaos_ranges_witness :
    (∀ i, i < 8 →
      Float64.le 0.0 (draw splitMix64 (splitMix64.Seed 42 0) i) = true ∧
        Float64.lt (draw splitMix64 (splitMix64.Seed 42 0) i) 1.0 = true) ∧
    ((Float64.le (-10.0) (initChaos splitMix64 0 42).1.1.X = true ∧
      Float64.lt (initChaos splitMix64 0 42).1.1.X 10.0 = true) ∧
    (Float64.le (-10.0) (initChaos splitMix64 0 42).1.1.Y = true ∧
      Float64.lt (initChaos splitMix64 0 42).1.1.Y 10.0 = true) ∧
    (Float64.le (-10.0) (initChaos splitMix64 0 42).1.1.Z = true ∧
      Float64.lt (initChaos splitMix64 0 42).1.1.Z 10.0 = true) ∧
    (Float64.le 0.0 (initChaos splitMix64 0 42).1.2.M = true ∧
      Float64.lt (initChaos splitMix64 0 42).1.2.M 30.0 = true) ∧
    (Float64.le 0.0 (initChaos splitMix64 0 42).1.2.N = true ∧
      Float64.lt (initChaos splitMix64 0 42).1.2.N 30.0 = true) ∧
    (Float64.le 0.0 (initChaos splitMix64 0 42).1.2.P = true ∧
      Float64.lt (initChaos splitMix64 0 42).1.2.P 30.0 = true) ∧
    (Float64.le 0.0 (initChaos splitMix64 0 42).1.2.R = true ∧
      Float64.lt (initChaos splitMix64 0 42).1.2.R 30.0 = true) ∧
    (Float64.le 0.0 (initChaos splitMix64 0 42).1.2.Q = true ∧
      Float64.lt (initChaos splitMix64 0 42).1.2.Q 30.0 = true)) :=
  ⟨by decide, initChaos_ranges splitMix64 0 42 (by decide)⟩

end InitialRanges

/-! ## The integrators are the classical RK4 scheme (C14, C15) -/

section ClassicalScheme

variable {F : Type} [Add F] [Sub F] [Mul F] [Div F] [OfScientific F]

/-- C14: for every Lorenz state v and every dt, lorenzRK4(v, dt) is the
    classical RK4 update v + (dt/6)*(k1 + 2*k2 + 2*k3 + k4) with k1 = f(v),
    k2 = f(v + (1/2)*dt*k1), k3 = f(v + (1/2)*dt*k2), k4 = f(v + dt*k3), where
    f = lorenzDeriv is f(x,y,z) = (sigma*(y - x), x*(rho - z) - y, x*y -
    beta*z) with sigma = 10, rho = 28, beta = 8/3, sums and products taken
    left to right as written; the source writes the constant 1/2 as 0.5. -/
theorem lorenzRK4_classical (hhalf : (1.0 / 2.0 : F) = 0.5) (v : Vector3 F) (dt : F) :
    lorenzRK4 v dt = classicalRK4 Vector3.add Vector3.scale lorenzField v dt ∧
    lorenzDeriv v = lorenzField v ∧
    (sigma : F) = 10.0 ∧ (rho : F) = 28.0 ∧ (beta : F) = 8.0 / 3.0 := by
  refine ⟨?_, rfl, rfl, rfl, rfl⟩
  unfold classicalRK4
  rw [hhalf]
  rfl

/-- Witness of `lorenzRK4_classical` in binary64, at v = (1, 2, 3) and
    dt = 0.01. -/
theorem lorenzRK4_classical_witness :
    (1.0 / 2.0 : Float64) = 0.5 ∧
    (lorenzRK4 ({ X := 1.0, Y := 2.0, Z := 3.0 } : Vector3 Float64) 0.01 =
        classicalRK4 Vector3.add Vector3.scale lorenzField
          ({ X := 1.0, Y := 2.0, Z := 3.0 } : Vector3 Float64) 0.01 ∧
      lorenzDeriv ({ X := 1.0, Y := 2.0, Z := 3.0 } : Vector3 Float64) =
        lorenzField ({ X := 1.0, Y := 2.0, Z := 3.0 } : Vector3 Float64) ∧
      (sigma : Float64) = 10.0 ∧ (rho : Float64) = 28.0 ∧ (beta : Float64) = 8.0 / 3.0) :=
  ⟨by decide,
    lorenzRK4_classical (show (1.0 / 2.0 : Float64) = 0.5 by decide)
      { X := 1.0, Y := 2.0, Z := 3.0 } 0.01⟩

/-- C15: for every hyperchaotic state v and every dt, hyperchaoticRK4(v, dt)
    is the classical RK4 update v + (dt/6)*(k1 + 2*k2 + 2*k3 + k4) with
    k1 = g(v), k2 = g(v + (1/2)*dt*k1), k3 = g(v + (1/2)*dt*k2),
    k4 = g(v + dt*k3), where g = hyperchaoticDeriv is g(m,n,p,r,q) =
    (a*(n - m), m*(b - p) - n + q, m*n - c*p, n*p - r, r - q) with a = 30,
    b = 11, c = 90, sums and products taken left to right as written; the
    source writes the constant 1/2 as 0.5. -/
theorem hyperchaoticRK4_classical (hhalf : (1.0 / 2.0 : F) = 0.5) (v : Vector5 F) (dt : F) :
    hyperchaoticRK4 v dt = classicalRK4 Vector5.add Vector5.scale hyperField v dt ∧
    hyperchaoticDeriv v = hyperField v ∧
    (a : F) = 30.0 ∧ (b : F) = 11.0 ∧ (c : F) = 90.0 := by
  refine ⟨?_, rfl, rfl, rfl, rfl⟩
  unfold classicalRK4
  rw [hhalf]
  rfl

/-- Witness of `hyperchaoticRK4_classical` in binary64, at v = (1, 2, 3, 4, 5)
    and dt = 0.01. -/
theorem hyperchaoticRK4_classical_witness :
    (1.0 / 2.0 : Float64) = 0.5 ∧
    (hyperchaoticRK4 ({ M := 1.0, N := 2.0, P := 3.0, R := 4.0, Q := 5.0 } : Vector5 Float64)
          0.01 =
        classicalRK4 Vector5.add Vector5.scale hyperField
          ({ M := 1.0, N := 2.0, P := 3.0, R := 4.0, Q := 5.0 } : Vector5 Float64) 0.01 ∧
      hyperchaoticDeriv ({ M := 1.0, N := 2.0, P := 3.0, R := 4.0, Q := 5.0 } : Vector5 Float64) =
        hyperField ({ M := 1.0, N := 2.0, P := 3.0, R := 4.0, Q := 5.0 } : Vector5 Float64) ∧
      (a : Float64) = 30.0 ∧ (b : Float64) = 11.0 ∧ (c : Float64) = 90.0) :=
  ⟨by decide,
    hyperchaoticRK4_classical (show (1.0 / 2.0 : Float64) = 0.5 by decide)
      { M := 1.0, N := 2.0, P := 3.0, R := 4.0, Q := 5.0 } 0.01⟩

end ClassicalScheme

/-! ## The process-wide generator after a call (C16) -/

section GlobalState

variable {F G : Type} [Add F] [Sub F] [Mul F] [Div F] [OfScientific F] [HasFloat64bits F]

/-- C16, as stated, fails: a call of initChaos, and so a call of
    generateChaosKeys, with seed 42 on the SplitMix64 generator in state 0
    does not leave the process-wide generator in state 0. -/
theorem initChaos_changes_generator :
    (initChaos splitMix64 0 42).2 ≠ 0 ∧
    (generateChaosKeys splitMix64 0 42 10 (0.01 : Float64)).2 ≠ 0 := by
  constructor <;> decide

/-- C16, amended: the generator sampled for the initial conditions is the
    process-wide one, not a local one.  For every seed and every prior state,
    a call of initChaos, and therefore of generateChaosKeys, leaves the
    process-wide generator in the state reached from rand.Seed(seed) by
    exactly eight calls of rand.Float64(); the integration and the
    serialisation touch no generator state. -/
theorem generateChaosKeys_generator_state (rng : MathRand G F) (g : G) (seed steps : Int)
    (dt : F) :
    (initChaos rng g seed).2 = drawState rng (rng.Seed seed g) 8 ∧
    (generateChaosKeys rng g seed steps dt).2 = drawState rng (rng.Seed seed g) 8 :=
  ⟨rfl, rfl⟩

end GlobalState

/-! ## Streams populated by the source (C17) -/
section Populated

variable {F G : Type} [Add F] [Sub F] [Mul F] [Div F] [OfScientific F] [HasFloat64bits F]

/-- C17: generateChaosKeys declares eleven streams but populates only eight.
    For every seed, N and dt, streams 8, 9 and 10 of the returned bundle are
    empty (length 0), while streams 0..7 each have length 8 * N. -/
theorem generateChaosKeys_populates_eight (rng : MathRand G F) (g : G) (seed : Int) (N : Nat)
    (dt : F) :
    (generateChaosKeys rng g seed (N : Int) dt).1.get 8 = [] ∧
    (generateChaosKeys rng g seed (N : Int) dt).1.get 9 = [] ∧
    (generateChaosKeys rng g seed (N : Int) dt).1.get 10 = [] ∧
    ((generateChaosKeys rng g seed (N : Int) dt).1.get 0).length = 8 * N ∧
    ((generateChaosKeys rng g seed (N : Int) dt).1.get 1).length = 8 * N ∧
    ((generateChaosKeys rng g seed (N : Int) dt).1.get 2).length = 8 * N ∧
    ((generateChaosKeys rng g seed (N : Int) dt).1.get 3).length = 8 * N ∧
    ((generateChaosKeys rng g seed (N : Int) dt).1.get 4).length = 8 * N ∧
    ((generateChaosKeys rng g seed (N : Int) dt).1.get 5).length = 8 * N ∧
    ((generateChaosKeys rng g seed (N : Int) dt).1.get 6).length = 8 * N ∧
    ((generateChaosKeys rng g seed (N : Int) dt).1.get 7).length = 8 * N := by
  have hi : ∀ k : Fin 11, 8 ≤ k.val → (generateChaosKeys rng g seed (N : Int) dt).1.get k = [] :=
    fun k hk => generateChaosKeys_get_high rng g seed N dt k hk
  have lo : ∀ k : Fin 11, k.val < 8 →
      ((generateChaosKeys rng g seed (N : Int) dt).1.get k).length = 8 * N := by
    intro k hk
    rw [generateChaosKeys_length_low rng g seed N dt k hk, Int.toNat_ofNat]
  exact ⟨hi 8 (by decide), hi 9 (by decide), hi 10 (by decide), lo 0 (by decide),
    lo 1 (by decide), lo 2 (by decide), lo 3 (by decide), lo 4 (by decide), lo 5 (by decide),
    lo 6 (by decide), lo 7 (by decide)⟩

end Populated

/-! ## More steps only append (C18) -/

section Monotone

variable {F G : Type} [Add F] [Sub F] [Mul F] [Div F] [OfScientific F] [HasFloat64bits F]

theorem encodeTrajectory_add (k : Fin 11) (dt : F) (v : Vector3 F × Vector5 F) (n m : Nat) :
    ∃ t, encodeTrajectory k dt v (n + m) = encodeTrajectory k dt v n ++ t := by
  induction m with
  | zero => exact ⟨[], by simp⟩
  | succ m ih =>
    obtain ⟨t, ht⟩ := ih
    refine ⟨t ++ streamChunk k (stateAfter dt v (n + m + 1)), ?_⟩
    rw [← Nat.add_assoc, encodeTrajectory, ht, List.append_assoc]

/-- C18: monotonicity in the step count.  For every seed, dt and step counts
    N <= M, each of the eleven streams of generateChaosKeys(seed, N, dt) is an
    initial segment of the corresponding stream of generateChaosKeys(seed, M,
    dt): running more steps only appends bytes. -/
theorem generateChaosKeys_steps_monotone (rng : MathRand G F) (g : G) (seed : Int) (dt : F)
    (N M : Nat) (hNM : N ≤ M) (k : Fin 11) :
    (generateChaosKeys rng g seed (N : Int) dt).1.get k <+:
      (generateChaosKeys rng g seed (M : Int) dt).1.get k := by
  obtain ⟨t, ht⟩ := encodeTrajectory_add k dt (initChaos rng g seed).1 N (M - N)
  rw [Nat.add_sub_cancel' hNM] at ht
  refine ⟨t, ?_⟩
  rw [generateChaosKeys_get, generateChaosKeys_get, Int.toNat_ofNat, Int.toNat_ofNat, ht]

/-- Witness of `generateChaosKeys_steps_monotone` at N = 2, M = 10, stream 0
    (seed 42, dt = 0.01, SplitMix64 generator). -/
theorem generateChaosKeys_steps_monotone_witness :
    2 ≤ 10 ∧
    (generateChaosKeys splitMix64 0 42 ((2 : Nat) : Int) (0.01 : Float64)).1.get 0 <+:
      (generateChaosKeys splitMix64 0 42 ((10 : Nat) : Int) (0.01 : Float64)).1.get 0 :=
  ⟨by decide, generateChaosKeys_steps_monotone splitMix64 0 42 (0.01 : Float64) 2 10 (by decide) 0⟩

end Monotone

/-! ## Denotations of binary64 values

Every operation of the model acts on what its operands denote, and rounding
is symmetric under negation.
-/

namespace Float64

theorem xor_signBit (b : Nat) (hb : b < 2 ^ 64) :
    b ^^^ 2 ^ 63 = if b < 2 ^ 63 then b + 2 ^ 63 else b - 2 ^ 63 := by
  have key : ∀ r : Nat, r < 2 ^ 63 → r ^^^ 2 ^ 63 = 2 ^ 63 + r := by
    intro r hr
    apply Nat.eq_of_testBit_eq
    intro i
    rw [Nat.testBit_xor, Nat.testBit_two_pow]
    rcases Nat.lt_trichotomy i 63 with h | h | h
    · rw [Nat.testBit_two_pow_add_gt h]
      simp [Nat.ne_of_gt h]
    · subst h
      rw [Nat.testBit_two_pow_add_eq, Nat.testBit_lt_two_pow hr]
      simp
    · have h1 : r < 2 ^ i := Nat.lt_of_lt_of_le hr (Nat.pow_le_pow_right (by decide) (by omega))
      have h2 : 2 ^ 63 + r < 2 ^ i := by
        have : 2 ^ 64 ≤ 2 ^ i := Nat.pow_le_pow_right (by decide) (by omega)
        norm_num at hr this ⊢
        omega
      rw [Nat.testBit_lt_two_pow h1, Nat.testBit_lt_two_pow h2]
      simp [Nat.ne_of_lt h]
  by_cases h : b < 2 ^ 63
  · rw [if_pos h, key b h, Nat.add_comm]
  · rw [if_neg h]
    have hr : b - 2 ^ 63 < 2 ^ 63 := by
      norm_num at hb h ⊢
      omega
    have hk := key (b - 2 ^ 63) hr
    have e : 2 ^ 63 + (b - 2 ^ 63) = b := by omega
    rw [e] at hk
    calc b ^^^ 2 ^ 63 = ((b - 2 ^ 63) ^^^ 2 ^ 63) ^^^ 2 ^ 63 := by rw [hk]
      _ = b - 2 ^ 63 := by rw [Nat.xor_assoc, Nat.xor_self, Nat.xor_zero]

theorem neg_fields (x : Float64) :
    (neg x).sign = 1 - x.sign ∧ (neg x).expField = x.expField ∧
      (neg x).fracField = x.fracField := by
  have hb := x.bits_lt
  simp only [neg, sign, expField, fracField, ofBits, Nat.shiftRight_eq_div_pow,
    xor_signBit x.bits hb]
  split
  · rename_i h
    norm_num at hb h ⊢
    omega
  · rename_i h
    norm_num at hb h ⊢
    omega

theorem neg_ofBits (B : Nat) : neg (ofBits B) = ofBits (2 ^ 63 + B) := by
  have hb : B % 2 ^ 64 < 2 ^ 64 := Nat.mod_lt _ (by decide)
  simp only [neg, ofBits, xor_signBit _ hb, Float64.mk.injEq]
  split
  · rename_i h
    norm_num at hb h ⊢
    omega
  · rename_i h
    norm_num at hb h ⊢
    omega

theorem ofBits_signBit (c : Nat) : ofBits (1 * 2 ^ 63 + c) = neg (ofBits (0 * 2 ^ 63 + c)) := by
  rw [neg_ofBits, Nat.one_mul, Nat.zero_mul, Nat.zero_add]

/-- Rounding is symmetric: the sign bit is attached to the rounded magnitude. -/
theorem round_neg (n d : Nat) : round 1 n d = neg (round 0 n d) := by
  by_cases hn : n = 0
  · subst hn
    rw [round_zero, round_zero]
    exact ofBits_signBit 0
  · rw [round_eq 1 n d hn, round_eq 0 n d hn]
    split
    · exact ofBits_signBit _
    · rw [Nat.add_assoc, Nat.add_assoc]
      exact ofBits_signBit _

theorem classify (x : Float64) :
    (x.isNaN = true ∧ x.isInf = false ∧ x.isFinite = false) ∨
    (x.isNaN = false ∧ x.isInf = true ∧ x.isFinite = false) ∨
    (x.isNaN = false ∧ x.isInf = false ∧ x.isFinite = true) := by
  unfold isNaN isInf isFinite
  by_cases h1 : x.expField = 2047 <;> by_cases h2 : x.fracField = 0 <;> simp [h1, h2]

theorem sign_cases (x : Float64) : x.sign = 0 ∨ x.sign = 1 := by
  have := sign_le_one x
  omega

theorem view_neg (x : Float64) : view (neg x) = View.neg (view x) := by
  obtain ⟨h1, h2, h3⟩ := neg_fields x
  have hnan : (neg x).isNaN = x.isNaN := by unfold isNaN; rw [h2, h3]
  have hinf : (neg x).isInf = x.isInf := by unfold isInf; rw [h2, h3]
  have hmag : (neg x).mag = x.mag := by unfold mag; rw [h2, h3]
  unfold view
  rw [hnan, hinf]
  by_cases c1 : x.isNaN = true
  · rw [if_pos c1, if_pos c1]
    rfl
  · rw [if_neg c1, if_neg c1]
    by_cases c2 : x.isInf = true
    · rw [if_pos c2, if_pos c2, h1]
      rcases sign_cases x with h | h <;> rw [h] <;> rfl
    · rw [if_neg c2, if_neg c2]
      unfold scaled
      rw [h1, hmag]
      rcases sign_cases x with h | h <;> rw [h] <;> simp [View.neg]

theorem view_zero (s : Nat) (hs : s = 0 ∨ s = 1) : view (zero s) = View.fin 0 := by
  rcases hs with h | h <;> subst h <;> decide

theorem view_inf (s : Nat) (hs : s = 0 ∨ s = 1) : view (inf s) = View.inf (s == 1) := by
  rcases hs with h | h <;> subst h <;> decide

theorem view_qNaN : view qNaN = View.nan := by decide

theorem view_neg_neg (u : View) : View.neg (View.neg u) = u := by
  cases u <;> simp [View.neg]

theorem view_ofRound_neg (t : Int) (K : Nat) (ht : t ≠ 0) :
    View.ofRound (-t) K = View.neg (View.ofRound t K) := by
  unfold View.ofRound
  rw [Int.natAbs_neg]
  rcases Int.lt_or_gt_of_ne ht with h | h
  · have h1 : ¬ (-t < 0) := by omega
    rw [if_pos h, if_neg h1, round_neg, view_neg, view_neg_neg]
  · have h1 : -t < 0 := by omega
    have h2 : ¬ (t < 0) := by omega
    rw [if_pos h1, if_neg h2, round_neg, view_neg]

theorem view_add_neg_neg (u w : View) :
    View.add (View.neg u) (View.neg w) = View.neg (View.add u w) := by
  cases u <;> cases w <;> simp only [View.neg, View.add]
  · rename_i s r
    by_cases h : s = r
    · subst h
      simp [View.neg]
    · have : ¬ (!s) = (!r) := by simpa using h
      rw [if_neg h, if_neg this]
  · rename_i a b
    by_cases h : a + b = 0
    · rw [if_pos h, if_pos (by omega)]
      simp [View.neg]
    · rw [if_neg h, if_neg (by omega), show -a + -b = -(a + b) by omega, view_ofRound_neg _ _ h]
      rfl

theorem view_sub_neg_neg (u w : View) :
    View.sub (View.neg u) (View.neg w) = View.neg (View.sub u w) := by
  unfold View.sub
  rw [view_add_neg_neg]

theorem view_mul_neg_left (u w : View) :
    View.mul (View.neg u) w = View.neg (View.mul u w) := by
  cases u <;> cases w <;> simp only [View.neg, View.mul]
  · rename_i s r
    cases s <;> cases r <;> rfl
  · rename_i s b
    by_cases h : b = 0
    · rw [if_pos h, if_pos h]
    · rw [if_neg h, if_neg h]
      cases s <;> simp [View.neg]
  · rename_i a r
    by_cases h : a = 0
    · rw [if_pos h, if_pos (by omega)]
    · rw [if_neg h, if_neg (by omega)]
      have e : decide (-a < 0) = !decide (a < 0) := by
        by_cases h2 : a < 0
        · simp [h2]; omega
        · simp [h2]; omega
      rw [e]
      cases r <;> cases decide (a < 0) <;> rfl
  · rename_i a b
    by_cases h : a * b = 0
    · rw [if_pos h, if_pos (by rw [Int.neg_mul, h]; rfl)]
      simp [View.neg]
    · rw [if_neg h, if_neg (by rw [Int.neg_mul]; omega), Int.neg_mul, view_ofRound_neg _ _ h]
      rfl

theorem view_mul_comm (u w : View) : View.mul u w = View.mul w u := by
  cases u <;> cases w <;> simp only [View.mul]
  · rename_i s r
    cases s <;> cases r <;> rfl
  · rename_i s b
    split
    · rfl
    · cases s <;> cases decide (b < 0) <;> rfl
  · rename_i b s
    split
    · rfl
    · cases s <;> cases decide (b < 0) <;> rfl
  · rename_i a b
    rw [Int.mul_comm]

theorem view_mul_neg_right (u w : View) :
    View.mul u (View.neg w) = View.neg (View.mul u w) := by
  rw [view_mul_comm, view_mul_neg_left, view_mul_comm]

theorem view_of_nan (x : Float64) (h : x.isNaN = true) : view x = View.nan := by
  unfold view
  rw [if_pos h]

theorem view_of_inf (x : Float64) (h1 : x.isNaN = false) (h2 : x.isInf = true) :
    view x = View.inf (x.sign == 1) := by
  unfold view
  rw [h1, if_neg Bool.false_ne_true, if_pos h2]

theorem view_of_fin (x : Float64) (h1 : x.isNaN = false) (h2 : x.isInf = false) :
    view x = View.fin x.scaled := by
  unfold view
  rw [h1, h2, if_neg Bool.false_ne_true, if_neg Bool.false_ne_true]

theorem view_add (x y : Float64) : view (add x y) = View.add (view x) (view y) := by
  rcases classify x with ⟨xn, xi, -⟩ | ⟨xn, xi, -⟩ | ⟨xn, xi, -⟩
  · -- x is NaN
    have e : add x y = qNaN := by
      unfold add
      rw [xn, Bool.true_or, if_pos rfl]
    rw [e, view_qNaN, view_of_nan x xn]
    rfl
  · rcases classify y with ⟨yn, yi, -⟩ | ⟨yn, yi, -⟩ | ⟨yn, yi, -⟩
    · have e : add x y = qNaN := by
        unfold add
        rw [yn, Bool.or_true, if_pos rfl]
      rw [e, view_qNaN, view_of_inf x xn xi, view_of_nan y yn]
      rfl
    · -- both infinite
      have e : add x y = if x.sign != y.sign then qNaN else x := by
        unfold add
        simp only [xn, yn, xi, yi, Bool.or_self, Bool.false_eq_true, if_false, if_true,
          Bool.true_and]
      rw [e, view_of_inf x xn xi, view_of_inf y yn yi]
      rcases sign_cases x with hx | hx <;> rcases sign_cases y with hy | hy <;>
        simp [hx, hy, View.add, view_qNaN, view_of_inf x xn xi]
    · have e : add x y = x := by
        unfold add
        simp only [xn, yn, xi, yi, Bool.or_self, Bool.false_eq_true, if_false, if_true,
          Bool.false_and]
      rw [e, view_of_inf x xn xi, view_of_fin y yn yi]
      rfl
  · rcases classify y with ⟨yn, yi, -⟩ | ⟨yn, yi, -⟩ | ⟨yn, yi, -⟩
    · have e : add x y = qNaN := by
        unfold add
        rw [yn, Bool.or_true, if_pos rfl]
      rw [e, view_qNaN, view_of_fin x xn xi, view_of_nan y yn]
      rfl
    · have e : add x y = y := by
        unfold add
        simp only [xn, yn, xi, yi, Bool.or_self, Bool.false_eq_true, if_false, if_true]
      rw [e, view_of_fin x xn xi, view_of_inf y yn yi]
      rfl
    · -- both finite
      have e : add x y =
          if x.scaled + y.scaled = 0 then zero (if x.sign = 1 ∧ y.sign = 1 then 1 else 0)
          else round (if x.scaled + y.scaled < 0 then 1 else 0) (x.scaled + y.scaled).natAbs
            (1 <<< 1074) := by
        unfold add
        simp only [xn, yn, xi, yi, Bool.or_self, Bool.false_eq_true, if_false]
      rw [e, view_of_fin x xn xi, view_of_fin y yn yi]
      show _ = if x.scaled + y.scaled = 0 then View.fin 0
        else View.ofRound (x.scaled + y.scaled) 1074
      by_cases h : x.scaled + y.scaled = 0
      · rw [if_pos h, if_pos h]
        apply view_zero
        split
        · exact Or.inr rfl
        · exact Or.inl rfl
      · rw [if_neg h, if_neg h]
        rfl

theorem view_sub (x y : Float64) : view (sub x y) = View.sub (view x) (view y) := by
  unfold sub View.sub
  rw [view_add, view_neg]

theorem scaled_of_sign_zero (x : Float64) (h : x.sign = 0) : x.scaled = (x.mag : Int) := by
  unfold scaled
  rw [h, if_neg (by decide)]

theorem scaled_of_sign_one (x : Float64) (h : x.sign = 1) : x.scaled = -(x.mag : Int) := by
  unfold scaled
  rw [if_pos h]

theorem scaled_eq_zero_iff (x : Float64) : x.scaled = 0 ↔ x.mag = 0 := by
  unfold scaled
  split <;> omega

theorem natAbs_scaled (x : Float64) : x.scaled.natAbs = x.mag := by
  unfold scaled
  split <;> simp

/-- The sign bit of a product is the sign of the exact product. -/
theorem xor_sign_eq (x y : Float64) (hx : x.mag ≠ 0) (hy : y.mag ≠ 0) :
    x.sign ^^^ y.sign = if x.scaled * y.scaled < 0 then 1 else 0 := by
  have px : (0 : Int) < (x.mag : Int) := by omega
  have py : (0 : Int) < (y.mag : Int) := by omega
  have pp : (0 : Int) < (x.mag : Int) * (y.mag : Int) := Int.mul_pos px py
  rcases sign_cases x with sx | sx <;> rcases sign_cases y with sy | sy
  · rw [sx, sy, scaled_of_sign_zero x sx, scaled_of_sign_zero y sy, if_neg (by omega)]
    rfl
  · rw [sx, sy, scaled_of_sign_zero x sx, scaled_of_sign_one y sy, Int.mul_neg,
      if_pos (by omega)]
    rfl
  · rw [sx, sy, scaled_of_sign_one x sx, scaled_of_sign_zero y sy, Int.neg_mul,
      if_pos (by omega)]
    rfl
  · rw [sx, sy, scaled_of_sign_one x sx, scaled_of_sign_one y sy, Int.neg_mul, Int.mul_neg,
      Int.neg_neg, if_neg (by omega)]
    rfl

theorem xor_sign_cases (x y : Float64) : x.sign ^^^ y.sign = 0 ∨ x.sign ^^^ y.sign = 1 := by
  rcases sign_cases x with sx | sx <;> rcases sign_cases y with sy | sy <;> rw [sx, sy] <;> decide

theorem scaled_neg_iff (x : Float64) (hx : x.mag ≠ 0) : x.scaled < 0 ↔ x.sign = 1 := by
  rcases sign_cases x with sx | sx
  · rw [scaled_of_sign_zero x sx, sx]
    omega
  · rw [scaled_of_sign_one x sx, sx]
    omega

theorem xor_sign_inf (x y : Float64) (hy : y.mag ≠ 0) :
    (x.sign ^^^ y.sign == 1) = ((x.sign == 1) != decide (y.scaled < 0)) := by
  have h := scaled_neg_iff y hy
  rcases sign_cases x with sx | sx <;> rcases sign_cases y with sy | sy <;>
    simp [sx, sy, h]

theorem view_mul (x y : Float64) : view (mul x y) = View.mul (view x) (view y) := by
  rcases classify x with ⟨xn, xi, xf⟩ | ⟨xn, xi, xf⟩ | ⟨xn, xi, xf⟩
  · have e : mul x y = qNaN := by
      unfold mul
      simp only [xn, Bool.true_or, if_true]
    rw [e, view_qNaN, view_of_nan x xn]
    rfl
  · rcases classify y with ⟨yn, yi, yf⟩ | ⟨yn, yi, yf⟩ | ⟨yn, yi, yf⟩
    · have e : mul x y = qNaN := by
        unfold mul
        simp only [yn, Bool.or_true, if_true]
      rw [e, view_qNaN, view_of_inf x xn xi, view_of_nan y yn]
      rfl
    · have e : mul x y = inf (x.sign ^^^ y.sign) := by
        unfold mul
        simp only [xn, yn, xi, yi, xf, yf, Bool.or_self, Bool.false_eq_true, if_false, if_true,
          Bool.false_and]
      rw [e, view_of_inf x xn xi, view_of_inf y yn yi, view_inf _ (xor_sign_cases x y)]
      rcases sign_cases x with sx | sx <;> rcases sign_cases y with sy | sy <;>
        rw [sx, sy] <;> rfl
    · have e : mul x y = if y.mag = 0 then qNaN else inf (x.sign ^^^ y.sign) := by
        unfold mul
        simp only [xn, yn, xi, yi, xf, yf, Bool.or_self, Bool.false_eq_true, if_false, if_true,
          Bool.false_and, Bool.true_and, Bool.false_or, Bool.true_or, Bool.or_false,
          beq_iff_eq]
      rw [e, view_of_inf x xn xi, view_of_fin y yn yi]
      show _ = if y.scaled = 0 then View.nan
        else View.inf ((x.sign == 1) != decide (y.scaled < 0))
      by_cases h : y.mag = 0
      · rw [if_pos h, if_pos ((scaled_eq_zero_iff y).mpr h), view_qNaN]
      · rw [if_neg h, if_neg (fun c => h ((scaled_eq_zero_iff y).mp c)),
          view_inf _ (xor_sign_cases x y), xor_sign_inf x y h]
  · rcases classify y with ⟨yn, yi, yf⟩ | ⟨yn, yi, yf⟩ | ⟨yn, yi, yf⟩
    · have e : mul x y = qNaN := by
        unfold mul
        simp only [yn, Bool.or_true, if_true]
      rw [e, view_qNaN, view_of_fin x xn xi, view_of_nan y yn]
      rfl
    · have e : mul x y = if x.mag = 0 then qNaN else inf (x.sign ^^^ y.sign) := by
        unfold mul
        simp only [xn, yn, xi, yi, xf, yf, Bool.or_self, Bool.false_eq_true, if_false, if_true,
          Bool.false_and, Bool.true_and, Bool.false_or, Bool.true_or, Bool.or_false,
          beq_iff_eq]
      rw [e, view_of_fin x xn xi, view_of_inf y yn yi]
      show _ = if x.scaled = 0 then View.nan
        else View.inf (decide (x.scaled < 0) != (y.sign == 1))
      by_cases h : x.mag = 0
      · rw [if_pos h, if_pos ((scaled_eq_zero_iff x).mpr h), view_qNaN]
      · rw [if_neg h, if_neg (fun c => h ((scaled_eq_zero_iff x).mp c)),
          view_inf _ (xor_sign_cases x y), Nat.xor_comm, xor_sign_inf y x h]
        cases (y.sign == 1) <;> cases decide (x.scaled < 0) <;> rfl
    · have e : mul x y = round (x.sign ^^^ y.sign) (x.mag * y.mag) (1 <<< 2148) := by
        unfold mul
        simp only [xn, yn, xi, yi, Bool.or_self, Bool.false_eq_true, if_false]
      rw [e, view_of_fin x xn xi, view_of_fin y yn yi]
      show _ = if x.scaled * y.scaled = 0 then View.fin 0
        else View.ofRound (x.scaled * y.scaled) 2148
      by_cases h : x.mag * y.mag = 0
      · have h0 : x.scaled * y.scaled = 0 := by
          rcases Nat.mul_eq_zero.mp h with h1 | h1
          · rw [(scaled_eq_zero_iff x).mpr h1, Int.zero_mul]
          · rw [(scaled_eq_zero_iff y).mpr h1, Int.mul_zero]
        rw [h, round_zero, if_pos h0]
        exact view_zero _ (xor_sign_cases x y)
      · have hx : x.mag ≠ 0 := fun c => h (by rw [c, Nat.zero_mul])
        have hy : y.mag ≠ 0 := fun c => h (by rw [c, Nat.mul_zero])
        have h0 : x.scaled * y.scaled ≠ 0 := by
          intro c
          rcases Int.mul_eq_zero.mp c with h1 | h1
          · exact hx ((scaled_eq_zero_iff x).mp h1)
          · exact hy ((scaled_eq_zero_iff y).mp h1)
        rw [if_neg h0]
        unfold View.ofRound
        rw [Int.natAbs_mul, natAbs_scaled, natAbs_scaled, xor_sign_eq x y hx hy]

theorem same_of_view (x y : Float64) (h : view x = view y) : same x y = true := by
  unfold view at h
  unfold same equal orderKey
  generalize ((1 <<< 2100 : Nat) : Int) = P
  by_cases xn : x.isNaN = true
  · rw [if_pos xn] at h
    by_cases yn : y.isNaN = true
    · simp [xn, yn]
    · rw [if_neg yn] at h
      split at h <;> exact View.noConfusion h
  · rw [if_neg xn] at h
    by_cases yn : y.isNaN = true
    · rw [if_pos yn] at h
      split at h <;> exact View.noConfusion h
    · rw [if_neg yn] at h
      by_cases xi : x.isInf = true
      · rw [if_pos xi] at h
        by_cases yi : y.isInf = true
        · rw [if_pos yi] at h
          injection h with h
          have hs : (x.sign = 1) ↔ (y.sign = 1) := by simpa using h
          by_cases c : x.sign = 1
          · simp [xn, yn, xi, yi, c, hs.mp c]
          · have c2 : ¬ y.sign = 1 := fun k => c (hs.mpr k)
            simp [xn, yn, xi, yi, c, c2]
        · rw [if_neg yi] at h
          exact View.noConfusion h
      · rw [if_neg xi] at h
        by_cases yi : y.isInf = true
        · rw [if_pos yi] at h
          exact View.noConfusion h
        · rw [if_neg yi] at h
          injection h with h
          simp [xn, yn, xi, yi, h]

theorem view_hAdd (x y : Float64) : view (x + y) = View.add (view x) (view y) := view_add x y

theorem view_hSub (x y : Float64) : view (x - y) = View.sub (view x) (view y) := view_sub x y

theorem view_hMul (x y : Float64) : view (x * y) = View.mul (view x) (view y) := view_mul x y

theorem view_hNeg (x : Float64) : view (-x) = View.neg (view x) := view_neg x

end Float64

/-! ## Reflection symmetry of the Lorenz integrator (C19) -/

section Reflection

set_option maxRecDepth 100000 in
/-- C19, as stated, fails for float64 states.  At v = (0, 0, 1) with dt = 0.01
    the two sides of both equations differ in the sign of a zero (+0 against
    -0 in the x and y coordinates), and at v = (+Inf, 0, 0) the z coordinates
    are NaN, so the sides do not compare equal with `==` either. -/
theorem reflection_fails_binary64 :
    lorenzDeriv (reflect ({ X := 0.0, Y := 0.0, Z := 1.0 } : Vector3 Float64)) ≠
      reflect (lorenzDeriv { X := 0.0, Y := 0.0, Z := 1.0 }) ∧
    lorenzRK4 (reflect ({ X := 0.0, Y := 0.0, Z := 1.0 } : Vector3 Float64)) 0.01 ≠
      reflect (lorenzRK4 { X := 0.0, Y := 0.0, Z := 1.0 } 0.01) ∧
    Vector3.numEq
      (lorenzDeriv (reflect ({ X := 1.0 / 0.0, Y := 0.0, Z := 0.0 } : Vector3 Float64)))
      (reflect (lorenzDeriv { X := 1.0 / 0.0, Y := 0.0, Z := 0.0 })) = false ∧
    Vector3.numEq
      (lorenzRK4 (reflect ({ X := 1.0 / 0.0, Y := 0.0, Z := 0.0 } : Vector3 Float64)) 0.01)
      (reflect (lorenzRK4 { X := 1.0 / 0.0, Y := 0.0, Z := 0.0 } 0.01)) = false := by
  decide

/-- The Lorenz right-hand side maps mirror images to mirror images. -/
theorem lorenzDeriv_mirror (u w : Vector3 Float64) (h : Vector3.Mirror u w) :
    Vector3.Mirror (lorenzDeriv u) (lorenzDeriv w) := by
  obtain ⟨hX, hY, hZ⟩ := h
  refine ⟨?_, ?_, ?_⟩
  · simp only [lorenzDeriv, Float64.view_hMul, Float64.view_hSub, hX, hY,
      Float64.view_sub_neg_neg, Float64.view_mul_neg_right]
  · simp only [lorenzDeriv, Float64.view_hMul, Float64.view_hSub, hX, hY, hZ,
      Float64.view_sub_neg_neg, Float64.view_mul_neg_left]
  · simp only [lorenzDeriv, Float64.view_hMul, Float64.view_hSub, hX, hY, hZ,
      Float64.view_mul_neg_left, Float64.view_mul_neg_right, Float64.view_neg_neg]

/-- The stage update `v + c * k` keeps mirror images. -/
theorem stage_mirror (v w k l : Vector3 Float64) (c : Float64) (hv : Vector3.Mirror v w)
    (hk : Vector3.Mirror k l) :
    Vector3.Mirror { X := v.X + c * k.X, Y := v.Y + c * k.Y, Z := v.Z + c * k.Z }
      { X := w.X + c * l.X, Y := w.Y + c * l.Y, Z := w.Z + c * l.Z } := by
  obtain ⟨vX, vY, vZ⟩ := hv
  obtain ⟨kX, kY, kZ⟩ := hk
  refine ⟨?_, ?_, ?_⟩
  · simp only [Float64.view_hAdd, Float64.view_hMul, vX, kX, Float64.view_mul_neg_right,
      Float64.view_add_neg_neg]
  · simp only [Float64.view_hAdd, Float64.view_hMul, vY, kY, Float64.view_mul_neg_right,
      Float64.view_add_neg_neg]
  · simp only [Float64.view_hAdd, Float64.view_hMul, vZ, kZ]

/-- The weighted sum `k1 + 2*k2 + 2*k3 + k4` keeps mirror images. -/
theorem weights_mirror (k1 k2 k3 k4 l1 l2 l3 l4 : Vector3 Float64)
    (h1 : Vector3.Mirror k1 l1) (h2 : Vector3.Mirror k2 l2) (h3 : Vector3.Mirror k3 l3)
    (h4 : Vector3.Mirror k4 l4) :
    Vector3.Mirror
      { X := k1.X + 2.0 * k2.X + 2.0 * k3.X + k4.X
        Y := k1.Y + 2.0 * k2.Y + 2.0 * k3.Y + k4.Y
        Z := k1.Z + 2.0 * k2.Z + 2.0 * k3.Z + k4.Z }
      { X := l1.X + 2.0 * l2.X + 2.0 * l3.X + l4.X
        Y := l1.Y + 2.0 * l2.Y + 2.0 * l3.Y + l4.Y
        Z := l1.Z + 2.0 * l2.Z + 2.0 * l3.Z + l4.Z } := by
  obtain ⟨aX, aY, aZ⟩ := h1
  obtain ⟨bX, bY, bZ⟩ := h2
  obtain ⟨cX, cY, cZ⟩ := h3
  obtain ⟨dX, dY, dZ⟩ := h4
  refine ⟨?_, ?_, ?_⟩
  · simp only [Float64.view_hAdd, Float64.view_hMul, aX, bX, cX, dX, Float64.view_mul_neg_right,
      Float64.view_add_neg_neg]
  · simp only [Float64.view_hAdd, Float64.view_hMul, aY, bY, cY, dY, Float64.view_mul_neg_right,
      Float64.view_add_neg_neg]
  · simp only [Float64.view_hAdd, Float64.view_hMul, aZ, bZ, cZ, dZ]

/-- One RK4 step maps mirror images to mirror images. -/
theorem lorenzRK4_mirror (u w : Vector3 Float64) (dt : Float64) (h : Vector3.Mirror u w) :
    Vector3.Mirror (lorenzRK4 u dt) (lorenzRK4 w dt) := by
  have h1 := lorenzDeriv_mirror _ _ h
  have h2 := lorenzDeriv_mirror _ _ (stage_mirror _ _ _ _ (0.5 * dt) h h1)
  have h3 := lorenzDeriv_mirror _ _ (stage_mirror _ _ _ _ (0.5 * dt) h h2)
  have h4 := lorenzDeriv_mirror _ _ (stage_mirror _ _ _ _ dt h h3)
  have hw := weights_mirror _ _ _ _ _ _ _ _ h1 h2 h3 h4
  have hs := stage_mirror _ _ _ _ (dt / 6.0) h hw
  exact hs

theorem reflect_mirror (v : Vector3 Float64) : Vector3.Mirror (reflect v) v :=
  ⟨Float64.view_neg v.X, Float64.view_neg v.Y, rfl⟩

theorem same_of_mirror (u w : Vector3 Float64) (h : Vector3.Mirror u w) :
    Vector3.same u (reflect w) = true := by
  obtain ⟨hX, hY, hZ⟩ := h
  show (u.X.same (-w.X) && u.Y.same (-w.Y) && u.Z.same w.Z) = true
  rw [Float64.same_of_view _ _ (hX.trans (Float64.view_hNeg w.X).symm),
    Float64.same_of_view _ _ (hY.trans (Float64.view_hNeg w.Y).symm),
    Float64.same_of_view _ _ hZ]
  rfl

/-- C19, amended: on float64 states the integrator preserves the Lorenz
    reflection symmetry up to the sign of a zero and up to NaN.  With
    S(x, y, z) = (-x, -y, z), for every state v and every dt, each coordinate
    of lorenzDeriv(S v) and the same coordinate of S(lorenzDeriv v) compare
    equal with `==` or are both NaN, and likewise for lorenzRK4(S v, dt) and
    S(lorenzRK4(v, dt)). -/
theorem lorenz_reflection_binary64 (v : Vector3 Float64) (dt : Float64) :
    Vector3.same (lorenzDeriv (reflect v)) (reflect (lorenzDeriv v)) = true ∧
    Vector3.same (lorenzRK4 (reflect v) dt) (reflect (lorenzRK4 v dt)) = true :=
  ⟨same_of_mirror _ _ (lorenzDeriv_mirror _ _ (reflect_mirror v)),
    same_of_mirror _ _ (lorenzRK4_mirror _ _ dt (reflect_mirror v))⟩

variable {F : Type} [LinearOrderedField F]

/-- The reflection symmetry in exact arithmetic: over any ordered field, with
    S(x, y, z) = (-x, -y, z), for every state v and every dt, lorenzDeriv(S v)
    = S(lorenzDeriv v) and lorenzRK4(S v, dt) = S(lorenzRK4(v, dt)). -/
theorem lorenz_reflection_exact (v : Vector3 F) (dt : F) :
    lorenzDeriv (reflect v) = reflect (lorenzDeriv v) ∧
    lorenzRK4 (reflect v) dt = reflect (lorenzRK4 v dt) := by
  constructor
  · simp only [lorenzDeriv, reflect, Vector3.mk.injEq]
    refine ⟨by ring, by ring, by ring⟩
  · simp only [lorenzRK4, lorenzDeriv, reflect, Vector3.mk.injEq]
    refine ⟨by ring, by ring, by ring⟩

end Reflection

/-! ## The z-axis (C20) -/

section ZAxis

variable {F : Type} [LinearOrderedField F]

/-- C20: the z-axis is invariant under the Lorenz integrator.  In exact
    arithmetic (over any ordered field), for every z and dt,
    lorenzRK4((0, 0, z), dt) = (0, 0, z * (1 - h + h^2/2 - h^3/6 + h^4/24))
    with h = beta * dt = (8/3) * dt; in particular the origin is a fixed point
    of lorenzRK4 for every dt. -/
theorem lorenzRK4_z_axis (z dt : F) :
    lorenzRK4 ({ X := 0, Y := 0, Z := z } : Vector3 F) dt =
      { X := 0, Y := 0
        Z := z * (1 - beta * dt + (beta * dt) ^ 2 / 2 - (beta * dt) ^ 3 / 6
          + (beta * dt) ^ 4 / 24) } ∧
    (beta : F) = 8 / 3 ∧
    lorenzRK4 ({ X := 0, Y := 0, Z := 0 } : Vector3 F) dt = { X := 0, Y := 0, Z := 0 } := by
  have hb : (beta : F) = 8 / 3 := by unfold beta; norm_num
  refine ⟨?_, hb, ?_⟩
  · simp only [lorenzRK4, lorenzDeriv, Vector3.mk.injEq]
    refine ⟨by ring, by ring, ?_⟩
    norm_num
    ring
  · simp only [lorenzRK4, lorenzDeriv, Vector3.mk.injEq]
    refine ⟨by ring, by ring, by ring⟩

end ZAxis

end Eamsa512
